import Mathlib

/-!
Verification development for the Excel-vs-PDF document comparator
(`app.py`).  The Python code is shallowly embedded: strings are modelled
as Lean `String` (a wrapper around `List Char`), Python string
operations (`strip`, `upper`, `lower`, regex character classes `\s`,
`\d`, …) are modelled at ASCII precision, numeric parsing
(`float`/`int` round-trips) is modelled exactly, including binary64
rounding, and the regex-driven segmentation and extraction algorithms
are modelled as total recursive functions on character lists.
-/

namespace DocVerify

/-! ## ASCII character model of the Python string primitives -/
/-- ASCII whitespace: the characters that Python's `str.strip()` and the
regex class `\s` recognise in the ASCII range
(space, tab, newline, carriage return, vertical tab, form feed). -/
def isSpaceA (c : Char) : Bool :=
  c = ' ' || c = '\t' || c = '\n' || c = '\r' || c.toNat = 11 || c.toNat = 12

/-- ASCII decimal digit, the regex class `\d` at ASCII precision. -/
def isDigitA (c : Char) : Bool := 48 ≤ c.toNat && c.toNat ≤ 57

/-- ASCII letter, `[A-Za-z]`. -/
def isAlphaA (c : Char) : Bool :=
  (65 ≤ c.toNat && c.toNat ≤ 90) || (97 ≤ c.toNat && c.toNat ≤ 122)

/-- The decimal digit character for a value `0 ≤ n ≤ 9`. -/
def digitChar : Nat → Char
  | 0 => '0' | 1 => '1' | 2 => '2' | 3 => '3' | 4 => '4'
  | 5 => '5' | 6 => '6' | 7 => '7' | 8 => '8' | _ => '9'

/-- Value of a decimal digit character. -/
def dval (c : Char) : Nat := c.toNat - 48

/-- Python `str.upper()` on a character, at ASCII precision (this is the
core-library ASCII implementation, matching CPython on `[a-z]`). -/
def upChar (c : Char) : Char := Char.toUpper c

/-- Python `str.lower()` on a character, at ASCII precision. -/
def lowChar (c : Char) : Char := Char.toLower c

/-- Python `"...".strip()` on a character list: drop leading and
trailing whitespace. -/
def stripL (l : List Char) : List Char :=
  ((l.dropWhile isSpaceA).reverse.dropWhile isSpaceA).reverse

/-- Python `re.sub(r"\s+", " ", s)`: collapse every maximal whitespace
run to a single space.  The boolean flag records whether the previous
character was part of a whitespace run. -/
def collapseA (prevWs : Bool) : List Char → List Char
  | [] => []
  | c :: rest =>
    if isSpaceA c then
      if prevWs then collapseA true rest else ' ' :: collapseA true rest
    else c :: collapseA false rest

def collapseL (l : List Char) : List Char := collapseA false l

def upperL (l : List Char) : List Char := l.map upChar

def lowerL (l : List Char) : List Char := l.map lowChar

/-- Python `str.strip()` on a `String`. -/
def stripS (s : String) : String := ⟨stripL s.data⟩

/-- Python `str.upper()` on a `String`. -/
def upperS (s : String) : String := ⟨upperL s.data⟩

/-- Python `str.lower()` on a `String`. -/
def lowerS (s : String) : String := ⟨lowerL s.data⟩

/-- Python `s.strip().upper()`, the comparison canonicalisation used all
over the comparator. -/
def stripUpper (s : String) : String := upperS (stripS s)

/-! ## The normalizers (`app.py` lines 16-62) -/
/-- `normalize_name` (app.py line 28):
`re.sub(r"\s+", " ", str(name)).strip().upper()`. -/
def normalize_name (s : String) : String := ⟨upperL (stripL (collapseL s.data))⟩

/-- `normalize_text` (app.py line 31): same body as `normalize_name`. -/
def normalize_text (s : String) : String := ⟨upperL (stripL (collapseL s.data))⟩

/-- Python `str.startswith` with a single-character argument. -/
def startsWithC (c : Char) : List Char → Bool
  | [] => false
  | d :: _ => d = c

/-- `normalize_gender` (app.py lines 34-38): uppercase/strip, then any
value starting with `M` becomes `MALE`, with `F` becomes `FEMALE`,
otherwise the uppercased value passes through. -/
def normalize_gender (s : String) : String :=
  let g : List Char := upperL (stripL s.data)
  if startsWithC 'M' g then "MALE"
  else if startsWithC 'F' g then "FEMALE"
  else ⟨g⟩

/-- `normalize_result` (app.py lines 58-62): uppercase/strip, then map
`F` to `RA` and `P` to `PASS`, everything else passes through. -/
def normalize_result (s : String) : String :=
  let v : List Char := upperL (stripL s.data)
  if v = ['F'] then "RA" else if v = ['P'] then "PASS" else ⟨v⟩

/-- The star/asterisk variants removed by
`re.sub(r"[\*∗✱⁎﹡＊*]+", "", name)`
(app.py line 54). -/
def isStar (c : Char) : Bool :=
  c = '*' || c.toNat = 0x2217 || c.toNat = 0x2731 || c.toNat = 0x204E ||
  c.toNat = 0xFE61 || c.toNat = 0xFF0A

/-- The character class kept by
`re.sub(r"[^A-Za-z0-9\-\(\)\:\,\/\s&]", "", name)` (app.py line 55). -/
def isAllowedSub (c : Char) : Bool :=
  isAlphaA c || isDigitA c || c = '-' || c = '(' || c = ')' || c = ':' ||
  c = ',' || c = '/' || c = '&' || isSpaceA c

/-- `normalize_subject_name_after_extraction` (app.py lines 52-56):
strip star glyphs, strip disallowed characters, collapse whitespace,
trim, uppercase.  `re.sub(class, "", s)` is character filtering. -/
def normalize_subject_name_after_extraction (s : String) : String :=
  ⟨upperL (stripL (collapseL ((s.data.filter (fun c => !isStar c)).filter isAllowedSub)))⟩

/-! ## Well-formedness of collapsed/stripped text -/
/-- The head of the list, if any, is not whitespace. -/
def headNotWs : List Char → Bool
  | [] => true
  | d :: _ => !isSpaceA d

/-- Every whitespace character is a single space not followed by
whitespace: the invariant of `re.sub(r"\s+", " ", ·)` output. -/
def wsOk : List Char → Bool
  | [] => true
  | c :: rest => (if isSpaceA c then c = ' ' && headNotWs rest else true) && wsOk rest

/-! ## Decimal printing of naturals (Python `str(int)` digits) -/
/-- Fuel-indexed decimal printer; the fuel only bounds recursion depth. -/
def natDigitsAux : Nat → Nat → List Char
  | 0, _ => []
  | fuel + 1, n =>
    if n < 10 then [digitChar n]
    else natDigitsAux fuel (n / 10) ++ [digitChar (n % 10)]

/-- Decimal digit string of a natural number, no padding, as produced by
Python's `str` on a nonnegative `int`. -/
def natDigits (n : Nat) : List Char := natDigitsAux (n + 1) n

/-! ## `normalize_dob` (app.py lines 40-50): the five `strptime` formats -/
/-- Consume one expected literal character. -/
def expectC (c : Char) : List Char → Option (List Char)
  | d :: rest => if d = c then some rest else none
  | [] => none

/-- `strptime`'s `%d` / `%m`: one or two decimal digits, greedy. -/
def parse12 : List Char → Option (Nat × List Char)
  | [] => none
  | c1 :: rest =>
    if isDigitA c1 then
      match rest with
      | c2 :: rest2 =>
        if isDigitA c2 then some (dval c1 * 10 + dval c2, rest2)
        else some (dval c1, rest)
      | [] => some (dval c1, [])
    else none

/-- `strptime`'s `%Y`: exactly four decimal digits. -/
def parse4 : List Char → Option (Nat × List Char)
  | c1 :: c2 :: c3 :: c4 :: rest =>
    if isDigitA c1 && isDigitA c2 && isDigitA c3 && isDigitA c4 then
      some ((((dval c1 * 10 + dval c2) * 10 + dval c3) * 10 + dval c4), rest)
    else none
  | _ => none

/-- Case-insensitive literal match; the pattern is given lowercase. -/
def matchCI : List Char → List Char → Option (List Char)
  | [], l => some l
  | _ :: _, [] => none
  | p :: ps, c :: rest => if lowChar c = p then matchCI ps rest else none

/-- C-locale month abbreviations, as produced by `strftime("%b")`. -/
def monAbbr : Nat → List Char
  | 1 => ['J', 'a', 'n'] | 2 => ['F', 'e', 'b'] | 3 => ['M', 'a', 'r']
  | 4 => ['A', 'p', 'r'] | 5 => ['M', 'a', 'y'] | 6 => ['J', 'u', 'n']
  | 7 => ['J', 'u', 'l'] | 8 => ['A', 'u', 'g'] | 9 => ['S', 'e', 'p']
  | 10 => ['O', 'c', 't'] | 11 => ['N', 'o', 'v'] | _ => ['D', 'e', 'c']

/-- The month-abbreviation alternation of `strptime`'s `%b`
(case-insensitive). -/
def monList : List (List Char × Nat) :=
  [(['j', 'a', 'n'], 1), (['f', 'e', 'b'], 2), (['m', 'a', 'r'], 3),
   (['a', 'p', 'r'], 4), (['m', 'a', 'y'], 5), (['j', 'u', 'n'], 6),
   (['j', 'u', 'l'], 7), (['a', 'u', 'g'], 8), (['s', 'e', 'p'], 9),
   (['o', 'c', 't'], 10), (['n', 'o', 'v'], 11), (['d', 'e', 'c'], 12)]

def parseMonFrom : List (List Char × Nat) → List Char → Option (Nat × List Char)
  | [], _ => none
  | (ab, m) :: rest, l =>
    match matchCI ab l with
    | some r => some (m, r)
    | none => parseMonFrom rest l

def parseMon (l : List Char) : Option (Nat × List Char) := parseMonFrom monList l

def isLeap (y : Nat) : Bool := (y % 4 = 0 && y % 100 ≠ 0) || y % 400 = 0

def daysInMonth (y m : Nat) : Nat :=
  if m = 2 then (if isLeap y then 29 else 28)
  else if m = 4 || m = 6 || m = 9 || m = 11 then 30
  else 31

/-- The ranges accepted by `datetime`'s constructor (year 1-9999, valid
month and calendar day); `strptime` raises `ValueError` outside them,
which `normalize_dob` catches by moving to the next format. -/
def validYMD (y m d : Nat) : Bool :=
  1 ≤ y && y ≤ 9999 && 1 ≤ m && m ≤ 12 && 1 ≤ d && d ≤ daysInMonth y m

structure PyDate where
  y : Nat
  m : Nat
  d : Nat
deriving DecidableEq

def mkValidated (y m d : Nat) : Option PyDate :=
  if validYMD y m d then some ⟨y, m, d⟩ else none

/-- `strptime(s, "%Y-%m-%d")` (full-string match plus range check). -/
def parseFmtISO (l : List Char) : Option PyDate :=
  match parse4 l with
  | none => none
  | some (y, r1) =>
    match expectC '-' r1 with
    | none => none
    | some r2 =>
      match parse12 r2 with
      | none => none
      | some (m, r3) =>
        match expectC '-' r3 with
        | none => none
        | some r4 =>
          match parse12 r4 with
          | none => none
          | some (d, r5) => if r5 = [] then mkValidated y m d else none

/-- `strptime(s, "%d<sep>%b<sep>%Y")`. -/
def parseFmtDMonY (sep : Char) (l : List Char) : Option PyDate :=
  match parse12 l with
  | none => none
  | some (d, r1) =>
    match expectC sep r1 with
    | none => none
    | some r2 =>
      match parseMon r2 with
      | none => none
      | some (m, r3) =>
        match expectC sep r3 with
        | none => none
        | some r4 =>
          match parse4 r4 with
          | none => none
          | some (y, r5) => if r5 = [] then mkValidated y m d else none

/-- `strptime(s, "%d<sep>%m<sep>%Y")`. -/
def parseFmtDMY (sep : Char) (l : List Char) : Option PyDate :=
  match parse12 l with
  | none => none
  | some (d, r1) =>
    match expectC sep r1 with
    | none => none
    | some r2 =>
      match parse12 r2 with
      | none => none
      | some (m, r3) =>
        match expectC sep r3 with
        | none => none
        | some r4 =>
          match parse4 r4 with
          | none => none
          | some (y, r5) => if r5 = [] then mkValidated y m d else none

/-- The format list of app.py line 44, in source order:
`"%Y-%m-%d", "%d-%b-%Y", "%d/%b/%Y", "%d/%m/%Y", "%d-%m-%Y"`. -/
def dobFormats : List (List Char → Option PyDate) :=
  [parseFmtISO, parseFmtDMonY '-', parseFmtDMonY '/', parseFmtDMY '/', parseFmtDMY '-']

/-- The `for fmt in (...): try ... except: continue` loop. -/
def tryFormats : List (List Char → Option PyDate) → List Char → Option PyDate
  | [], _ => none
  | f :: fs, l =>
    match f l with
    | some dt => some dt
    | none => tryFormats fs l

/-- `strftime("%d")`: two-digit zero-padded day. -/
def pad2 (n : Nat) : List Char := if n < 10 then ['0', digitChar n] else natDigits n

/-- `d.strftime("%d-%b-%Y")` (the year is printed unpadded, as glibc
does for `%Y`). -/
def fmtDMonY (dt : PyDate) : List Char :=
  pad2 dt.d ++ '-' :: (monAbbr dt.m ++ '-' :: natDigits dt.y)

/-- `normalize_dob` (app.py lines 40-50). -/
def normalize_dob (s : String) : String :=
  let t := stripL s.data
  if t = [] || lowerL t = ['n', 'a', 'n'] then ""
  else
    match tryFormats dobFormats t with
    | some dt => ⟨fmtDMonY dt⟩
    | none => ⟨t⟩

/-! ## `normalize_register` (app.py lines 16-26)

The numeric branch `str(int(float(s)))` is modelled exactly: the Python
float-literal grammar (signs, optional fraction, exponent, underscores
between digits, `inf`/`infinity`/`nan`), correct rounding of the exact
decimal value to IEEE-754 binary64 (round to nearest, ties to even,
overflow to infinity), then truncation toward zero and decimal
printing.  `int(float(s))` raises on `inf`/`nan`/overflow, which the
source catches by falling through to the digit-extraction branch. -/
inductive PyFloatLit where
  | special
  | finite (neg : Bool) (m : Nat) (e10 : Int)
deriving DecidableEq

/-- Continue a digit run, allowing single underscores between digits
(as Python's float grammar does). Returns collected digits and rest. -/
def digitpartLoop : List Char → (List Char × List Char)
  | [] => ([], [])
  | c :: rest =>
    if isDigitA c then
      let p := digitpartLoop rest
      (c :: p.1, p.2)
    else if c = '_' then
      match rest with
      | d :: rest2 =>
        if isDigitA d then
          let p := digitpartLoop rest2
          (d :: p.1, p.2)
        else ([], c :: rest)
      | [] => ([], [c])
    else ([], c :: rest)

/-- A `digitpart`: one digit followed by digits with optional single
underscores between them. -/
def parseDigitpart : List Char → Option (List Char × List Char)
  | c :: rest =>
    if isDigitA c then
      let p := digitpartLoop rest
      some (c :: p.1, p.2)
    else none
  | [] => none

/-- Value of a digit string. -/
def natVal (l : List Char) : Nat := l.foldl (fun acc c => acc * 10 + dval c) 0

def parseSign : List Char → (Bool × List Char)
  | '+' :: r => (false, r)
  | '-' :: r => (true, r)
  | l => (false, l)

/-- `inf`, `infinity` or `nan`, case-insensitive, consuming the whole
remaining input. -/
def isSpecialBody (l : List Char) : Bool :=
  (matchCI ['i', 'n', 'f', 'i', 'n', 'i', 't', 'y'] l = some []) ||
  (matchCI ['i', 'n', 'f'] l = some []) ||
  (matchCI ['n', 'a', 'n'] l = some [])

/-- Optional exponent suffix; the input must be fully consumed. -/
def parseExp : List Char → Option Int
  | [] => some 0
  | c :: rest =>
    if lowChar c = 'e' then
      let sr := parseSign rest
      match parseDigitpart sr.2 with
      | some (ds, r3) =>
        if r3 = [] then
          some (if sr.1 then -(natVal ds : Int) else (natVal ds : Int))
        else none
      | none => none
    else none

/-- Mantissa: `digits [. digits?] | . digits`; returns the mantissa
digits' value, the number of fraction digits, and the rest. -/
def parseMantissa (l : List Char) : Option (Nat × Nat × List Char) :=
  match parseDigitpart l with
  | some (d1, r1) =>
    match r1 with
    | '.' :: r2 =>
      match parseDigitpart r2 with
      | some (d2, r3) => some (natVal (d1 ++ d2), d2.length, r3)
      | none => some (natVal d1, 0, r2)
    | _ => some (natVal d1, 0, r1)
  | none =>
    match l with
    | '.' :: r2 =>
      match parseDigitpart r2 with
      | some (d2, r3) => some (natVal d2, d2.length, r3)
      | none => none
    | _ => none

/-- Python `float(s)` literal acceptance and exact value, for an
already-stripped string: `none` when `float` raises `ValueError`. -/
def pyParseFloat (l : List Char) : Option PyFloatLit :=
  let sr := parseSign l
  if isSpecialBody sr.2 then some .special
  else
    match parseMantissa sr.2 with
    | none => none
    | some (m, frac, rest) =>
      match parseExp rest with
      | none => none
      | some e => some (.finite sr.1 m (e - (frac : Int)))

/-- Bit length via fuel (the fuel only bounds recursion depth). -/
def bitLenAux : Nat → Nat → Nat
  | 0, _ => 0
  | fuel + 1, n => if n = 0 then 0 else bitLenAux fuel (n / 2) + 1

def bitLen (n : Nat) : Nat := bitLenAux n n

/-- `b * 2^e ≤ a` for a signed exponent. -/
def leShift (a b : Nat) (e : Int) : Bool :=
  if 0 ≤ e then b * 2 ^ e.toNat ≤ a else b ≤ a * 2 ^ (-e).toNat

def decLen (m : Nat) : Nat := (natDigits m).length

/-- Round the exact positive rational `m * 10^e10` to the nearest IEEE
binary64 value (ties to even) and truncate toward zero; `none` when the
value overflows to infinity (so Python's `int()` raises). -/
def roundTruncate (m : Nat) (e10 : Int) : Option Nat :=
  if m = 0 then some 0
  else
    let dlen : Int := (decLen m : Int)
    if dlen + e10 ≤ -1 then some 0
    else if 310 ≤ dlen + e10 then none
    else
      let a : Nat := if 0 ≤ e10 then m * 10 ^ e10.toNat else m
      let b : Nat := if 0 ≤ e10 then 1 else 10 ^ (-e10).toNat
      let la : Int := (bitLen a : Int) - 1
      let lb : Int := (bitLen b : Int) - 1
      let g : Int := la - lb
      let e2 : Int := if leShift a b g then g else g - 1
      let p : Int := e2 - 52
      let N : Nat := if 0 ≤ p then a else a * 2 ^ (-p).toNat
      let D : Nat := if 0 ≤ p then b * 2 ^ p.toNat else b
      let q : Nat := N / D
      let r : Nat := N % D
      let s1 : Nat :=
        if D < 2 * r then q + 1
        else if 2 * r < D then q
        else if q % 2 = 0 then q else q + 1
      let e2f : Int := if s1 = 2 ^ 53 then e2 + 1 else e2
      let pf : Int := if s1 = 2 ^ 53 then p + 1 else p
      let sf : Nat := if s1 = 2 ^ 53 then 2 ^ 52 else s1
      if 1024 ≤ e2f then none
      else some (if 0 ≤ pf then sf * 2 ^ pf.toNat else sf / 2 ^ (-pf).toNat)

/-- Python `str(i)` for an `int`. -/
def intStr (i : Int) : String :=
  if i < 0 then ⟨'-' :: natDigits i.natAbs⟩ else ⟨natDigits i.toNat⟩

/-- `str(int(float(s)))` when it does not raise. -/
def pyFloatInt (s : String) : Option Int :=
  match pyParseFloat s.data with
  | none => none
  | some .special => none
  | some (.finite neg m e10) =>
    match roundTruncate m e10 with
    | none => none
    | some n => some (if neg then -(n : Int) else (n : Int))

/-- `re.findall(r"\d+", s)`: the maximal digit runs, in order. -/
def digitRunsGo : List Char → List Char → List (List Char)
  | cur, [] => if cur = [] then [] else [cur.reverse]
  | cur, c :: rest =>
    if isDigitA c then digitRunsGo (c :: cur) rest
    else if cur = [] then digitRunsGo [] rest
    else cur.reverse :: digitRunsGo [] rest

def digitRuns (l : List Char) : List (List Char) := digitRunsGo [] l

/-- `re.sub(r"\.0+$", "", s)`: strip one trailing dot-zeros suffix. -/
def stripDotZeros (s : String) : String :=
  let r := s.data.reverse
  let z := (r.takeWhile (fun c => c = '0')).length
  if 1 ≤ z ∧ (r.drop z).head? = some '.' then ⟨(r.drop (z + 1)).reverse⟩ else s

/-- `normalize_register` (app.py lines 16-26). -/
def normalize_register (v : String) : String :=
  let s := stripS v
  if s = "" ∨ s = "nan" ∨ s = "None" then ""
  else
    match pyFloatInt s with
    | some i => intStr i
    | none =>
      let digits := (digitRuns s.data).join
      if digits ≠ [] then ⟨digits.dropWhile (fun c => c = '0')⟩ else stripDotZeros s

/-! ## Anchor matcher: `re.finditer` for the register-number anchors
(app.py lines 137-139)

Primary pattern: `REGISTER\s*NO\.?\s*:?\s*([0-9A-Za-z\.\-E\+]+)` (case
insensitive); fallback pattern: the same with `([0-9]+)`.  The optional
`.` and `:` introduce the only backtracking choice points; the
whitespace and identifier runs are safely maximal because the adjacent
pieces can never consume whitespace. -/
/-- The identifier class of the primary anchor pattern,
`[0-9A-Za-z\.\-E\+]` (the `E` is already covered by the letters). -/
def primCls (c : Char) : Bool :=
  isDigitA c || isAlphaA c || c = '.' || c = '-' || c = '+'

/-- The identifier class of the fallback anchor pattern, `[0-9]`. -/
def digCls (c : Char) : Bool := isDigitA c

/-- `\s*[cls]+` : whitespace run then a nonempty identifier run;
returns consumed length and the captured identifier. -/
def anchorTailB (cls : Char → Bool) (l : List Char) : Option (Nat × List Char) :=
  if (l.dropWhile isSpaceA).takeWhile cls = [] then none
  else some ((l.takeWhile isSpaceA).length + ((l.dropWhile isSpaceA).takeWhile cls).length,
    (l.dropWhile isSpaceA).takeWhile cls)

/-- `\s*:?\s*[cls]+`, with the greedy optional colon tried first and
the colon-less alternative on backtracking. -/
def anchorTailA (cls : Char → Bool) (l : List Char) : Option (Nat × List Char) :=
  match l.dropWhile isSpaceA with
  | ':' :: l3 =>
    match anchorTailB cls l3 with
    | some pr => some ((l.takeWhile isSpaceA).length + 1 + pr.1, pr.2)
    | none =>
      match anchorTailB cls (l.dropWhile isSpaceA) with
      | some pr => some ((l.takeWhile isSpaceA).length + pr.1, pr.2)
      | none => none
  | _ =>
    match anchorTailB cls (l.dropWhile isSpaceA) with
    | some pr => some ((l.takeWhile isSpaceA).length + pr.1, pr.2)
    | none => none

/-- `\.?\s*:?\s*[cls]+`, with the greedy optional dot tried first and
the dot-less alternative on backtracking. -/
def anchorTailFull (cls : Char → Bool) (l : List Char) : Option (Nat × List Char) :=
  match l with
  | '.' :: l2 =>
    match anchorTailA cls l2 with
    | some pr => some (1 + pr.1, pr.2)
    | none => anchorTailA cls l
  | _ => anchorTailA cls l

/-- Attempt the whole anchor pattern at the head of `l`; on success
returns the total matched length and the captured identifier
(`m.group(2)`). -/
def anchorMatchAt (cls : Char → Bool) (l : List Char) : Option (Nat × List Char) :=
  match matchCI ['r', 'e', 'g', 'i', 's', 't', 'e', 'r'] l with
  | none => none
  | some l1 =>
    match matchCI ['n', 'o'] (l1.dropWhile isSpaceA) with
    | none => none
    | some l3 =>
      (anchorTailFull cls l3).map
        (fun pr => (8 + (l1.takeWhile isSpaceA).length + 2 + pr.1, pr.2))

/-- `re.finditer`: scan left to right, non-overlapping matches, each
reported as `(start, end, captured identifier)`.  The fuel only bounds
the recursion depth (each step advances at least one character). -/
def findIterAux (cls : Char → Bool) : Nat → List Char → Nat → List (Nat × Nat × List Char)
  | 0, _, _ => []
  | fuel + 1, l, pos =>
    match l with
    | [] => []
    | c :: rest =>
      match anchorMatchAt cls (c :: rest) with
      | some (n, ident) =>
        (pos, pos + n, ident) :: findIterAux cls fuel ((c :: rest).drop n) (pos + n)
      | none => findIterAux cls fuel rest (pos + 1)

def findIter (cls : Char → Bool) (l : List Char) : List (Nat × Nat × List Char) :=
  findIterAux cls (l.length + 1) l 0

/-! ## Block segmentation (app.py lines 143-147 and 73-77)

Block `i` runs from the end of anchor match `i` to the start of anchor
match `i+1` (end of text for the last block). -/
def segmentSpans (L : Nat) : List (Nat × Nat) → List (Nat × Nat)
  | [] => []
  | [m] => [(m.2, L)]
  | m1 :: m2 :: rest => (m1.2, m2.1) :: segmentSpans L (m2 :: rest)

/-! ## Marks-phase record extraction (app.py lines 150-198) -/
/-- One regex match of `pat_a`/`pat_b` inside a block: character span
plus the captured groups (groups 3-5 are the optional
credit/grade/grade-point of the lenient layout). -/
structure RawMatch where
  start : Nat
  stop : Nat
  g1 : String
  g2 : String
  g3 : Option String
  g4 : Option String
  g5 : Option String
  g6 : String
deriving DecidableEq

structure CourseRec where
  register_no : String
  sub_code : String
  subject_name : String
  course_credit : String
  grade : String
  grade_point : String
  result : String
deriving DecidableEq

inductive Layout where
  | A
  | B
deriving DecidableEq

structure AccRec where
  start : Nat
  stop : Nat
  layout : Layout
  crec : CourseRec
deriving DecidableEq

/-- The inline result mapping of lines 174 and 196:
`"PASS" if result == "P" else ("PASS" if result == "PASS" else result)`
applied to `group(6).strip().upper()`. -/
def inlineResult (g6 : String) : String :=
  let r := stripUpper g6
  if r = "P" then "PASS" else if r = "PASS" then "PASS" else r

/-- Record built from a Layout-A (strict) match, lines 160-176. -/
def buildA (regno : String) (m : RawMatch) : CourseRec :=
  { register_no := regno
    sub_code := stripUpper m.g1
    subject_name := stripS m.g2
    course_credit := stripS (m.g3.getD "")
    grade := stripUpper (m.g4.getD "")
    grade_point := stripS (m.g5.getD "")
    result := inlineResult m.g6 }

/-- Record built from a Layout-B (lenient) match, lines 178-197, with
defaults `"0"`, `"S"`, `"0"` for the missing optional groups. -/
def buildB (regno : String) (m : RawMatch) : CourseRec :=
  { register_no := regno
    sub_code := stripUpper m.g1
    subject_name := stripS m.g2
    course_credit := match m.g3 with | some c => stripS c | none => "0"
    grade := match m.g4 with | some g => stripUpper g | none => "S"
    grade_point := match m.g5 with | some g => stripS g | none => "0"
    result := inlineResult m.g6 }

/-- The overlap test of line 180:
`any(not (e <= us or s >= ue) for us, ue in used_spans)`. -/
def overlapsAny (s e : Nat) (used : List (Nat × Nat)) : Bool :=
  used.any (fun u => !(decide (e ≤ u.1) || decide (u.2 ≤ s)))

/-- The Layout-B scan of lines 178-198: discard any match overlapping a
used span, record each accepted span. -/
def scanB (regno : String) : List (Nat × Nat) → List RawMatch → List AccRec
  | _, [] => []
  | used, m :: rest =>
    if overlapsAny m.start m.stop used then scanB regno used rest
    else ⟨m.start, m.stop, Layout.B, buildB regno m⟩ ::
      scanB regno (used ++ [(m.start, m.stop)]) rest

/-- Per-block extraction: all Layout-A matches accepted and their spans
recorded, then the Layout-B scan against those spans. -/
def extractBlock (regno : String) (aMs bMs : List RawMatch) : List AccRec :=
  (aMs.map (fun m => ⟨m.start, m.stop, Layout.A, buildA regno m⟩)) ++
    scanB regno (aMs.map (fun m => (m.start, m.stop))) bMs

/-! ## `extract_pdf_data` assembled (app.py lines 126-200)

The per-block course-pattern matcher (`pat_a`/`pat_b` finditer) is a
parameter `cm`: the claims about anchors, fallback and overlap
resolution hold for every block matcher. -/
/-- The anchor iterator with numeric fallback, lines 137-139. -/
def regIters (text : List Char) : List (Nat × Nat × List Char) :=
  let p := findIter primCls text
  if p = [] then findIter digCls text else p

/-- The per-block slices: captured raw identifier and the stripped
block text `text_data[m.end() : next.start()].strip()`. -/
def blocksFrom (L : Nat) (text : List Char) :
    List (Nat × Nat × List Char) → List (List Char × List Char)
  | [] => []
  | [(_, e, id1)] => [(id1, stripL ((text.drop e).take (L - e)))]
  | (_, e1, id1) :: (s2, e2, id2) :: rest =>
    (id1, stripL ((text.drop e1).take (s2 - e1))) ::
      blocksFrom L text ((s2, e2, id2) :: rest)

def extractFromIters (cm : List Char → List RawMatch × List RawMatch)
    (text : List Char) (iters : List (Nat × Nat × List Char)) : List CourseRec :=
  ((blocksFrom text.length text iters).map (fun b =>
    (extractBlock (normalize_register ⟨b.1⟩) (cm b.2).1 (cm b.2).2).map
      (fun r => r.crec))).join

/-- `extract_pdf_data`, parameterized by the per-block course matcher. -/
def extract_pdf_data (cm : List Char → List RawMatch × List RawMatch)
    (text : List Char) : List CourseRec :=
  extractFromIters cm text (regIters text)

/-- `extract_pdf_data` with the numeric-fallback branch (line 138-139)
removed. -/
def extract_pdf_data_primary_only (cm : List Char → List RawMatch × List RawMatch)
    (text : List Char) : List CourseRec :=
  extractFromIters cm text (findIter primCls text)

/-- The caller-side check of app.py lines 303-305: an empty extraction
is reported as a fatal input error and processing stops. -/
def phase2CheckPdf (recs : List CourseRec) : Except String (List CourseRec) :=
  if recs = [] then Except.error "Could not extract any course data from PDF."
  else Except.ok recs

/-! ## Matcher/Differ models (app.py lines 248-266 and 321-351) -/
/-- One normalized phase-1 (student info) row. -/
structure P1Row where
  REGISTER_NO : String
  UMIS_NO : String
  NAME : String
  DOB : String
  GENDER : String
  PROGRAMME : String
deriving DecidableEq

/-- The phase-1 composite key (line 250: `on=["REGISTER_NO", "UMIS_NO"]`). -/
def p1Key (r : P1Row) : String × String := (r.REGISTER_NO, r.UMIS_NO)

def p1CompareCols : List String := ["NAME", "DOB", "GENDER", "PROGRAMME"]

def getP1 (r : P1Row) : String → String
  | "NAME" => r.NAME
  | "DOB" => r.DOB
  | "GENDER" => r.GENDER
  | "PROGRAMME" => r.PROGRAMME
  | _ => ""

/-- Line 262: the differing columns under `.strip().upper()` inequality. -/
def p1Diffs (e p : P1Row) : List String :=
  p1CompareCols.filter (fun c => decide (stripUpper (getP1 e c) ≠ stripUpper (getP1 p c)))

/-- The `_merge == "both"` pairs of the outer merge: every excel row
paired with every pdf row sharing its key, in excel-major order. -/
def p1Both (ex pdf : List P1Row) : List (P1Row × P1Row) :=
  (ex.map (fun e => (pdf.filter (fun p => decide (p1Key p = p1Key e))).map
    (fun p => (e, p)))).join

/-- Lines 260-266: mismatched pairs with the retained
`MISMATCH_FIELDS` annotation `", ".join(diffs)`. -/
def phase1Mismatches (ex pdf : List P1Row) : List (P1Row × P1Row × String) :=
  (p1Both ex pdf).filterMap (fun pr =>
    if p1Diffs pr.1 pr.2 = [] then none
    else some (pr.1, pr.2, String.intercalate ", " (p1Diffs pr.1 pr.2)))

/-- Line 256: `left_only` rows of the outer merge — one output row per
excel row whose key has no pdf counterpart (no de-duplication). -/
def p1MissingInPdf (ex pdf : List P1Row) : List P1Row :=
  ex.filter (fun e => !(pdf.any (fun p => decide (p1Key p = p1Key e))))

/-- Line 257: `right_only` rows of the outer merge. -/
def p1MissingInExcel (ex pdf : List P1Row) : List P1Row :=
  pdf.filter (fun p => !(ex.any (fun e => decide (p1Key e = p1Key p))))

/-- One normalized phase-2 (marks) row, restricted to the key and
compared columns. -/
structure P2Row where
  REGISTER_NO : String
  SUB_CODE : String
  SUBJECT_NAME : String
  GRADE : String
  GRADE_POINT : String
  RESULT : String
deriving DecidableEq

/-- One row of the phase-2 inner merge (line 332), with `_EXCEL` and
`_PDF` suffixed columns. -/
structure P2Merged where
  REGISTER_NO : String
  SUB_CODE : String
  SUBJECT_NAME_EXCEL : String
  GRADE_EXCEL : String
  GRADE_POINT_EXCEL : String
  RESULT_EXCEL : String
  SUBJECT_NAME_PDF : String
  GRADE_PDF : String
  GRADE_POINT_PDF : String
  RESULT_PDF : String
deriving DecidableEq

/-- `pd.merge(..., how="inner")` on `(REGISTER_NO, SUB_CODE)`,
left-major order. -/
def p2InnerJoin (ex pdf : List P2Row) : List P2Merged :=
  (ex.map (fun e =>
    (pdf.filter (fun p =>
      decide (p.REGISTER_NO = e.REGISTER_NO ∧ p.SUB_CODE = e.SUB_CODE))).map
    (fun p =>
      ⟨e.REGISTER_NO, e.SUB_CODE, e.SUBJECT_NAME, e.GRADE, e.GRADE_POINT, e.RESULT,
        p.SUBJECT_NAME, p.GRADE, p.GRADE_POINT, p.RESULT⟩))).join

/-- Lines 340-341: subject names renormalized a second time, in place,
on the merged frame. -/
def renormMerged (m : P2Merged) : P2Merged :=
  { m with
    SUBJECT_NAME_EXCEL := normalize_subject_name_after_extraction m.SUBJECT_NAME_EXCEL
    SUBJECT_NAME_PDF := normalize_subject_name_after_extraction m.SUBJECT_NAME_PDF }

def p2CompareCols : List String := ["SUBJECT_NAME", "GRADE", "GRADE_POINT", "RESULT"]

def getE (m : P2Merged) : String → String
  | "SUBJECT_NAME" => m.SUBJECT_NAME_EXCEL
  | "GRADE" => m.GRADE_EXCEL
  | "GRADE_POINT" => m.GRADE_POINT_EXCEL
  | "RESULT" => m.RESULT_EXCEL
  | _ => ""

def getP (m : P2Merged) : String → String
  | "SUBJECT_NAME" => m.SUBJECT_NAME_PDF
  | "GRADE" => m.GRADE_PDF
  | "GRADE_POINT" => m.GRADE_POINT_PDF
  | "RESULT" => m.RESULT_PDF
  | _ => ""

/-- Lines 343-351: a merged row is a mismatch when ANY compared column
differs under `.strip().upper()` inequality. -/
def p2IsMismatch (m : P2Merged) : Bool :=
  p2CompareCols.any (fun c => decide (stripUpper (getE m c) ≠ stripUpper (getP m c)))

/-- The phase-2 mismatch rows: the renormalized merged rows that the
any-column-differs filter keeps.  Note the output rows carry no
differing-field annotation. -/
def phase2Mismatches (ex pdf : List P2Row) : List P2Merged :=
  ((p2InnerJoin ex pdf).map renormMerged).filter p2IsMismatch

/-- The dataframe columns of a phase-2 merged/mismatch row, exactly as
exported to CSV. -/
def p2Columns (m : P2Merged) : List (String × String) :=
  [("REGISTER_NO", m.REGISTER_NO), ("SUB_CODE", m.SUB_CODE),
   ("SUBJECT_NAME_EXCEL", m.SUBJECT_NAME_EXCEL), ("GRADE_EXCEL", m.GRADE_EXCEL),
   ("GRADE_POINT_EXCEL", m.GRADE_POINT_EXCEL), ("RESULT_EXCEL", m.RESULT_EXCEL),
   ("SUBJECT_NAME_PDF", m.SUBJECT_NAME_PDF), ("GRADE_PDF", m.GRADE_PDF),
   ("GRADE_POINT_PDF", m.GRADE_POINT_PDF), ("RESULT_PDF", m.RESULT_PDF)]

/-- The differing columns of a phase-2 merged row (computable from the
row, but not stored by the code). -/
def p2DiffsOf (m : P2Merged) : List String :=
  p2CompareCols.filter (fun c => decide (stripUpper (getE m c) ≠ stripUpper (getP m c)))

/-- `DataFrame.drop_duplicates()`: keep the first occurrence of each
key. -/
def dedupAux {α : Type} [DecidableEq α] (seen : List α) : List α → List α
  | [] => []
  | k :: rest =>
    if k ∈ seen then dedupAux seen rest else k :: dedupAux (seen ++ [k]) rest

def dedupFirst {α : Type} [DecidableEq α] (l : List α) : List α := dedupAux [] l

/-- Lines 324-330: left merge of the de-duplicated key projections with
`indicator=True`, keeping `left_only` — a key-set difference. -/
def missingKeys (src tgt : List (String × String)) : List (String × String) :=
  (dedupFirst src).filter (fun k => !(decide (k ∈ dedupFirst tgt)))

def p2Keys (rows : List P2Row) : List (String × String) :=
  rows.map (fun r => (r.REGISTER_NO, r.SUB_CODE))

def p2MissingInPdf (ex pdf : List P2Row) : List (String × String) :=
  missingKeys (p2Keys ex) (p2Keys pdf)

def p2MissingInExcel (ex pdf : List P2Row) : List (String × String) :=
  missingKeys (p2Keys pdf) (p2Keys ex)

/-! ## Basic lemmas about the character model -/
theorem toNat_ofNatAux (n : Nat) (h : n.isValidChar) :
    (Char.ofNatAux n h).toNat = n := rfl

theorem char_ext {a b : Char} (h : a.toNat = b.toNat) : a = b := by
  apply Char.eq_of_val_eq
  apply UInt32.eq_of_toBitVec_eq
  exact BitVec.eq_of_toNat_eq h

theorem toNat_upChar (c : Char) :
    (upChar c).toNat = if 97 ≤ c.toNat ∧ c.toNat ≤ 122 then c.toNat - 32 else c.toNat := by
  unfold upChar Char.toUpper
  by_cases h : c.toNat ≥ 97 ∧ c.toNat ≤ 122
  · have hv : (c.toNat - 32).isValidChar := by
      left; omega
    simp only [h, and_self, if_true, ge_iff_le]
    unfold Char.ofNat
    rw [dif_pos hv]
    rfl
  · simp only [ge_iff_le] at h
    rw [if_neg h, if_neg h]

theorem upChar_idem (c : Char) : upChar (upChar c) = upChar c := by
  have h1 := toNat_upChar c
  have h2 := toNat_upChar (upChar c)
  apply char_ext
  by_cases hl : 97 ≤ c.toNat ∧ c.toNat ≤ 122
  · rw [if_pos hl] at h1
    rw [h2, h1, if_neg (by omega)]
  · rw [if_neg hl] at h1
    rw [h2, h1, if_neg hl]

theorem isSpaceA_upChar (c : Char) : isSpaceA (upChar c) = isSpaceA c := by
  have h := toNat_upChar c
  unfold isSpaceA
  by_cases hl : 97 ≤ c.toNat ∧ c.toNat ≤ 122
  · rw [if_pos hl] at h
    have hne : ∀ d : Char, d.toNat ≠ 32 → d.toNat ≠ 9 → d.toNat ≠ 10 → d.toNat ≠ 13 →
        d.toNat ≠ 11 → d.toNat ≠ 12 →
        (d = ' ' || d = '\t' || d = '\n' || d = '\r' || d.toNat = 11 || d.toNat = 12) = false := by
      intro d h32 h9 h10 h13 h11 h12
      simp only [Bool.or_eq_false_iff, decide_eq_false_iff_not]
      refine ⟨⟨⟨⟨⟨?_, ?_⟩, ?_⟩, ?_⟩, ?_⟩, ?_⟩ <;>
        first
        | (intro he; apply h32; rw [he]; rfl)
        | (intro he; apply h9; rw [he]; rfl)
        | (intro he; apply h10; rw [he]; rfl)
        | (intro he; apply h13; rw [he]; rfl)
        | omega
    rw [hne (upChar c) (by omega) (by omega) (by omega) (by omega) (by omega) (by omega),
        hne c (by omega) (by omega) (by omega) (by omega) (by omega) (by omega)]
  · rw [if_neg hl] at h
    rw [char_ext h]

theorem collapseA_true_eq (l : List Char) :
    collapseA true l = collapseA false (l.dropWhile isSpaceA) := by
  induction l with
  | nil => rfl
  | cons c rest ih =>
    by_cases h : isSpaceA c
    · simp [collapseA, h, List.dropWhile_cons, ih]
    · simp [collapseA, h, List.dropWhile_cons]

theorem headNotWs_collapseA_true (l : List Char) :
    headNotWs (collapseA true l) = true := by
  induction l with
  | nil => rfl
  | cons c rest ih =>
    by_cases h : isSpaceA c
    · simpa [collapseA, h] using ih
    · simp [collapseA, h, headNotWs]

theorem wsOk_collapseA (l : List Char) : ∀ b, wsOk (collapseA b l) = true := by
  induction l with
  | nil => intro b; rfl
  | cons c rest ih =>
    intro b
    by_cases h : isSpaceA c
    · cases b with
      | true => simpa [collapseA, h] using ih true
      | false =>
        simp only [collapseA, h, if_true]
        simp [wsOk, headNotWs_collapseA_true, ih true]
    · simp [collapseA, h, wsOk, ih false]

theorem dropWhileWs_of_headNotWs {l : List Char} (h : headNotWs l = true) :
    l.dropWhile isSpaceA = l := by
  cases l with
  | nil => rfl
  | cons d rest =>
    simp only [headNotWs, Bool.not_eq_true'] at h
    simp [List.dropWhile_cons, h]

theorem wsOk_tail {c : Char} {l : List Char} (h : wsOk (c :: l) = true) :
    wsOk l = true := by
  simp only [wsOk, Bool.and_eq_true] at h
  exact h.2

theorem collapseA_of_wsOk : ∀ l : List Char, wsOk l = true → collapseA false l = l := by
  intro l
  induction l with
  | nil => intro _; rfl
  | cons c rest ih =>
    intro h
    have hrest := wsOk_tail h
    by_cases hc : isSpaceA c
    · simp only [wsOk, hc, if_true, Bool.and_eq_true, decide_eq_true_eq] at h
      obtain ⟨⟨hsp, hhd⟩, _⟩ := h
      subst hsp
      simp only [collapseA, hc, if_true]
      rw [collapseA_true_eq, dropWhileWs_of_headNotWs hhd, ih hrest]
      simp
    · simp [collapseA, hc, ih hrest]

theorem wsOk_dropWhileWs : ∀ l : List Char, wsOk l = true →
    wsOk (l.dropWhile isSpaceA) = true := by
  intro l
  induction l with
  | nil => intro _; rfl
  | cons c rest ih =>
    intro h
    by_cases hc : isSpaceA c
    · simp only [List.dropWhile_cons, hc, if_true]
      exact ih (wsOk_tail h)
    · simpa [List.dropWhile_cons, hc] using h

theorem wsOk_append_left : ∀ l₁ l₂ : List Char, wsOk (l₁ ++ l₂) = true →
    wsOk l₁ = true := by
  intro l₁
  induction l₁ with
  | nil => intro _ _; rfl
  | cons c rest ih =>
    intro l₂ h
    simp only [List.cons_append, wsOk, Bool.and_eq_true] at h ⊢
    obtain ⟨hcond, hrest⟩ := h
    refine ⟨?_, ih l₂ hrest⟩
    by_cases hc : isSpaceA c
    · simp only [hc, if_true, Bool.and_eq_true, decide_eq_true_eq] at hcond ⊢
      obtain ⟨hsp, hhd⟩ := hcond
      refine ⟨hsp, ?_⟩
      cases rest with
      | nil => rfl
      | cons d rest' => simpa [headNotWs] using hhd
    · simp [hc]

theorem dropWhile_self (p : Char → Bool) : ∀ l : List Char,
    (l.dropWhile p).dropWhile p = l.dropWhile p := by
  intro l
  induction l with
  | nil => rfl
  | cons c rest ih =>
    by_cases h : p c
    · simp [List.dropWhile_cons, h, ih]
    · simp [List.dropWhile_cons, h]

/-- `stripL l` is a prefix of `l.dropWhile isSpaceA`. -/
theorem stripL_pre (l : List Char) :
    ∃ t, l.dropWhile isSpaceA = stripL l ++ t := by
  refine ⟨((l.dropWhile isSpaceA).reverse.takeWhile isSpaceA).reverse, ?_⟩
  unfold stripL
  have h := List.takeWhile_append_dropWhile (p := isSpaceA) (l := (l.dropWhile isSpaceA).reverse)
  have h2 := congrArg List.reverse h
  rw [List.reverse_append, List.reverse_reverse] at h2
  exact h2.symm

theorem dropWhileWs_stripL (l : List Char) :
    (stripL l).dropWhile isSpaceA = stripL l := by
  obtain ⟨t, ht⟩ := stripL_pre l
  have hself := dropWhile_self isSpaceA l
  rw [ht] at hself
  cases hB : stripL l with
  | nil => rfl
  | cons c B' =>
    rw [hB] at hself
    by_cases hc : isSpaceA c
    · exfalso
      simp only [List.cons_append, List.dropWhile_cons, hc, if_true] at hself
      have hlen := congrArg List.length hself
      rw [List.length_cons] at hlen
      have hle : ((B' ++ t).dropWhile isSpaceA).length ≤ (B' ++ t).length :=
        (List.dropWhile_sublist _).length_le
      omega
    · simp [List.dropWhile_cons, hc]

theorem stripL_idem (l : List Char) : stripL (stripL l) = stripL l := by
  have h1 : (stripL l).dropWhile isSpaceA = stripL l := dropWhileWs_stripL l
  have h2 : (stripL l).reverse = (l.dropWhile isSpaceA).reverse.dropWhile isSpaceA := by
    unfold stripL
    rw [List.reverse_reverse]
  calc stripL (stripL l)
      = (((stripL l).dropWhile isSpaceA).reverse.dropWhile isSpaceA).reverse := rfl
    _ = ((stripL l).reverse.dropWhile isSpaceA).reverse := by rw [h1]
    _ = stripL l := by rw [h2, dropWhile_self, ← h2, List.reverse_reverse]

theorem wsOk_stripL (l : List Char) (h : wsOk l = true) :
    wsOk (stripL l) = true := by
  obtain ⟨t, ht⟩ := stripL_pre l
  have h1 : wsOk (l.dropWhile isSpaceA) = true := wsOk_dropWhileWs l h
  rw [ht] at h1
  exact wsOk_append_left _ _ h1

/-! ## Uppercasing commutes with the whitespace operations -/
theorem isSpaceA_comp_upChar : (fun c => isSpaceA (upChar c)) = isSpaceA := by
  funext c
  exact isSpaceA_upChar c

theorem collapseA_upperL : ∀ (l : List Char) (b : Bool),
    collapseA b (upperL l) = upperL (collapseA b l) := by
  intro l
  induction l with
  | nil => intro b; rfl
  | cons c rest ih =>
    intro b
    show collapseA b (upChar c :: upperL rest) = upperL (collapseA b (c :: rest))
    by_cases h : isSpaceA c
    · have hup : isSpaceA (upChar c) = true := by rw [isSpaceA_upChar]; exact h
      cases b with
      | true =>
        simp only [collapseA, h, hup, if_true]
        exact ih true
      | false =>
        simp only [collapseA, h, hup, if_true, Bool.false_eq_true, if_false]
        rw [ih true]
        rfl
    · have hup : isSpaceA (upChar c) = false := by rw [isSpaceA_upChar]; simpa using h
      simp only [collapseA, h, hup, Bool.false_eq_true, if_false]
      rw [ih false]
      rfl

theorem stripL_upperL (l : List Char) : stripL (upperL l) = upperL (stripL l) := by
  unfold stripL upperL
  have hc : (isSpaceA ∘ upChar) = isSpaceA := by funext c; exact isSpaceA_upChar c
  rw [List.dropWhile_map, hc, ← List.map_reverse, List.dropWhile_map, hc, ← List.map_reverse]

theorem upperL_idem (l : List Char) : upperL (upperL l) = upperL l := by
  unfold upperL
  rw [List.map_map]
  congr 1
  funext c
  exact upChar_idem c

/-- Idempotence of the collapse-strip-uppercase pipeline shared by
`normalize_name`, `normalize_text` and the tail of
`normalize_subject_name_after_extraction`. -/
theorem csu_idem (l : List Char) :
    upperL (stripL (collapseL (upperL (stripL (collapseL l))))) =
      upperL (stripL (collapseL l)) := by
  have h1 : collapseL (upperL (stripL (collapseL l))) =
      upperL (collapseL (stripL (collapseL l))) := collapseA_upperL _ false
  have h2 : wsOk (stripL (collapseL l)) = true :=
    wsOk_stripL _ (wsOk_collapseA l false)
  have h3 : collapseL (stripL (collapseL l)) = stripL (collapseL l) :=
    collapseA_of_wsOk _ h2
  rw [h1, h3, stripL_upperL, upperL_idem, stripL_idem]

/-- Idempotence of `.strip().upper()` composition at the list level. -/
theorem su_idem (l : List Char) :
    upperL (stripL (upperL (stripL l))) = upperL (stripL l) := by
  rw [stripL_upperL, upperL_idem, stripL_idem]

/-! ## Character membership through the pipeline -/
theorem char_eq_iff_toNat {a b : Char} : a = b ↔ a.toNat = b.toNat :=
  ⟨fun h => congrArg Char.toNat h, char_ext⟩

theorem mem_collapseA : ∀ (b : Bool) (l : List Char) (c : Char),
    c ∈ collapseA b l → c = ' ' ∨ c ∈ l := by
  intro b l
  induction l generalizing b with
  | nil => intro c h; cases h
  | cons d rest ih =>
    intro c h
    by_cases hd : isSpaceA d
    · by_cases hb : b = true
      · subst hb
        simp only [collapseA, hd, if_true] at h
        rcases ih true c h with h' | h'
        · exact Or.inl h'
        · exact Or.inr (List.mem_cons_of_mem d h')
      · have hb' : b = false := by revert hb; cases b <;> simp
        subst hb'
        simp only [collapseA, hd, if_true, Bool.false_eq_true, if_false] at h
        rcases List.mem_cons.mp h with h' | h'
        · exact Or.inl h'
        · rcases ih true c h' with h'' | h''
          · exact Or.inl h''
          · exact Or.inr (List.mem_cons_of_mem d h'')
    · simp only [collapseA, hd, Bool.false_eq_true, if_false] at h
      rcases List.mem_cons.mp h with h' | h'
      · exact Or.inr (h' ▸ List.mem_cons_self d rest)
      · rcases ih false c h' with h'' | h''
        · exact Or.inl h''
        · exact Or.inr (List.mem_cons_of_mem d h'')

theorem mem_stripL {c : Char} {l : List Char} (h : c ∈ stripL l) : c ∈ l := by
  unfold stripL at h
  rw [List.mem_reverse] at h
  have h1 := (List.dropWhile_sublist (p := isSpaceA)
    (l := (l.dropWhile isSpaceA).reverse)).subset h
  rw [List.mem_reverse] at h1
  exact (List.dropWhile_sublist (p := isSpaceA) (l := l)).subset h1

theorem isAllowedSub_upChar {c : Char} (h : isAllowedSub c = true) :
    isAllowedSub (upChar c) = true := by
  have hu := toNat_upChar c
  by_cases hl : 97 ≤ c.toNat ∧ c.toNat ≤ 122
  · rw [if_pos hl] at hu
    unfold isAllowedSub isAlphaA
    have : 65 ≤ (upChar c).toNat ∧ (upChar c).toNat ≤ 90 := by omega
    simp [this.1, this.2]
  · rw [if_neg hl] at hu
    rwa [char_ext hu]

theorem isStar_of_allowed {c : Char} (h : isAllowedSub c = true) :
    isStar c = false := by
  by_contra hs
  have hs' : isStar c = true := by revert hs; cases isStar c <;> simp
  unfold isStar at hs'
  unfold isAllowedSub isAlphaA isDigitA isSpaceA at h
  simp only [Bool.or_eq_true, Bool.and_eq_true, decide_eq_true_eq,
    char_eq_iff_toNat] at h hs'
  simp only [show ('*' : Char).toNat = 42 from rfl, show ('-' : Char).toNat = 45 from rfl,
    show ('(' : Char).toNat = 40 from rfl, show (')' : Char).toNat = 41 from rfl,
    show (':' : Char).toNat = 58 from rfl, show (',' : Char).toNat = 44 from rfl,
    show ('/' : Char).toNat = 47 from rfl, show ('&' : Char).toNat = 38 from rfl,
    show (' ' : Char).toNat = 32 from rfl, show ('\t' : Char).toNat = 9 from rfl,
    show ('\n' : Char).toNat = 10 from rfl, show ('\r' : Char).toNat = 13 from rfl]
    at h hs'
  omega

/-! ## Idempotence of the simple normalizers -/
theorem normalize_name_idem (s : String) :
    normalize_name (normalize_name s) = normalize_name s :=
  congrArg String.mk (csu_idem s.data)

theorem normalize_text_idem (s : String) :
    normalize_text (normalize_text s) = normalize_text s :=
  congrArg String.mk (csu_idem s.data)

theorem normalize_gender_idem (s : String) :
    normalize_gender (normalize_gender s) = normalize_gender s := by
  unfold normalize_gender
  set g := upperL (stripL s.data) with hg
  by_cases hm : startsWithC 'M' g = true
  · simp only [hm, if_true]
    decide
  · by_cases hf : startsWithC 'F' g = true
    · simp only [hm, Bool.false_eq_true, if_false, hf, if_true]
      decide
    · simp only [hm, hf, Bool.false_eq_true, if_false]
      have hsu : upperL (stripL (String.data ⟨g⟩)) = g := su_idem s.data
      simp only [hsu, hm, hf, Bool.false_eq_true, if_false]

theorem normalize_result_idem (s : String) :
    normalize_result (normalize_result s) = normalize_result s := by
  unfold normalize_result
  set v := upperL (stripL s.data) with hv
  by_cases hF : v = ['F']
  · simp only [hF, if_true]
    decide
  · by_cases hP : v = ['P']
    · simp only [hP, if_pos rfl, hF, if_neg hF]
      decide
    · simp only [if_neg hF, if_neg hP]
      have hsu : upperL (stripL (String.data ⟨v⟩)) = v := su_idem s.data
      simp only [hsu, if_neg hF, if_neg hP]

theorem normalize_subject_idem (s : String) :
    normalize_subject_name_after_extraction
      (normalize_subject_name_after_extraction s) =
      normalize_subject_name_after_extraction s := by
  unfold normalize_subject_name_after_extraction
  set x := (s.data.filter (fun c => !isStar c)).filter isAllowedSub with hx
  have hall : ∀ c ∈ upperL (stripL (collapseL x)), isAllowedSub c = true := by
    intro c hc
    unfold upperL at hc
    rcases List.mem_map.mp hc with ⟨d, hd, hdc⟩
    have hd2 : d ∈ collapseL x := mem_stripL hd
    rcases mem_collapseA false x d hd2 with h' | h'
    · subst hdc h'
      decide
    · have : isAllowedSub d = true := List.of_mem_filter h'
      subst hdc
      exact isAllowedSub_upChar this
  have hstar : ((upperL (stripL (collapseL x))).filter (fun c => !isStar c)) =
      upperL (stripL (collapseL x)) := by
    rw [List.filter_eq_self]
    intro c hc
    simp [isStar_of_allowed (hall c hc)]
  have hallow : ((upperL (stripL (collapseL x))).filter isAllowedSub) =
      upperL (stripL (collapseL x)) := by
    rw [List.filter_eq_self]
    intro c hc
    simp [hall c hc]
  show String.mk (upperL (stripL (collapseL (List.filter isAllowedSub
      (List.filter (fun c => !isStar c)
        (String.data ⟨upperL (stripL (collapseL x))⟩)))))) = _
  rw [show String.data ⟨upperL (stripL (collapseL x))⟩ = upperL (stripL (collapseL x)) from rfl,
    hstar, hallow]
  exact congrArg String.mk (csu_idem x)

theorem natDigitsAux_congr : ∀ (f1 f2 n : Nat), n < f1 → n < f2 →
    natDigitsAux f1 n = natDigitsAux f2 n := by
  intro f1
  induction f1 with
  | zero => intro f2 n h1 _; omega
  | succ f1 ih =>
    intro f2 n h1 h2
    cases f2 with
    | zero => omega
    | succ f2 =>
      by_cases hn : n < 10
      · simp [natDigitsAux, hn]
      · simp only [natDigitsAux, hn, if_false]
        rw [ih f2 (n / 10) (by omega) (by omega)]

theorem natDigits_small {n : Nat} (h : n < 10) : natDigits n = [digitChar n] := by
  simp [natDigits, natDigitsAux, h]

theorem natDigits_step {n : Nat} (h : 10 ≤ n) :
    natDigits n = natDigits (n / 10) ++ [digitChar (n % 10)] := by
  unfold natDigits
  have h1 : natDigitsAux (n + 1) n = natDigitsAux n (n / 10) ++ [digitChar (n % 10)] := by
    simp [natDigitsAux, Nat.not_lt.2 h]
  rw [h1]
  congr 1
  exact natDigitsAux_congr n (n / 10 + 1) (n / 10) (by omega) (by omega)

theorem isDigitA_digitChar (k : Nat) : isDigitA (digitChar k) = true := by
  unfold digitChar
  split <;> decide

theorem dval_digitChar {k : Nat} (h : k ≤ 9) : dval (digitChar k) = k := by
  interval_cases k <;> decide

theorem isSpaceA_digitChar (k : Nat) : isSpaceA (digitChar k) = false := by
  unfold digitChar
  split <;> decide

/-! ## Round-trip lemmas for `normalize_dob` -/
theorem natDigitsAux_digits : ∀ (fuel n : Nat), ∀ c ∈ natDigitsAux fuel n, isDigitA c = true := by
  intro fuel
  induction fuel with
  | zero => intro n c hc; cases hc
  | succ fuel ih =>
    intro n c hc
    by_cases hn : n < 10
    · simp only [natDigitsAux, hn, if_true, List.mem_singleton] at hc
      subst hc
      exact isDigitA_digitChar n
    · simp only [natDigitsAux, hn, if_false, List.mem_append, List.mem_singleton] at hc
      rcases hc with hc | hc
      · exact ih (n / 10) c hc
      · subst hc
        exact isDigitA_digitChar (n % 10)

theorem natDigits_digits (n : Nat) : ∀ c ∈ natDigits n, isDigitA c = true :=
  natDigitsAux_digits (n + 1) n

theorem not_ws_of_digit {c : Char} (h : isDigitA c = true) : isSpaceA c = false := by
  unfold isDigitA at h
  unfold isSpaceA
  simp only [Bool.and_eq_true, decide_eq_true_eq] at h
  simp only [Bool.or_eq_false_iff, decide_eq_false_iff_not, char_eq_iff_toNat,
    show (' ' : Char).toNat = 32 from rfl, show ('\t' : Char).toNat = 9 from rfl,
    show ('\n' : Char).toNat = 10 from rfl, show ('\r' : Char).toNat = 13 from rfl]
  omega

theorem dropWhileWs_eq_self {l : List Char} (h : ∀ c ∈ l, isSpaceA c = false) :
    l.dropWhile isSpaceA = l := by
  cases l with
  | nil => rfl
  | cons c rest => simp [List.dropWhile_cons, h c (List.mem_cons_self c rest)]

theorem stripL_eq_self {l : List Char} (h : ∀ c ∈ l, isSpaceA c = false) :
    stripL l = l := by
  unfold stripL
  rw [dropWhileWs_eq_self h,
    dropWhileWs_eq_self (fun c hc => h c (List.mem_reverse.mp hc)),
    List.reverse_reverse]

theorem natDigits2 {n : Nat} (h1 : 10 ≤ n) (h2 : n ≤ 99) :
    natDigits n = [digitChar (n / 10), digitChar (n % 10)] := by
  rw [natDigits_step h1, natDigits_small (show n / 10 < 10 by omega)]
  rfl

theorem pad2_digits (d : Nat) : ∀ c ∈ pad2 d, isDigitA c = true := by
  unfold pad2
  split
  · intro c hc
    rcases List.mem_cons.mp hc with hc | hc
    · subst hc; decide
    · rcases List.mem_singleton.mp hc with rfl
      exact isDigitA_digitChar d
  · intro c hc
    exact natDigits_digits d c hc

theorem pad2_shape (d : Nat) (h : d ≤ 99) : ∃ p1 p2, pad2 d = [p1, p2] := by
  unfold pad2
  split
  · exact ⟨'0', digitChar d, rfl⟩
  · exact ⟨digitChar (d / 10), digitChar (d % 10), natDigits2 (by omega) h⟩

theorem parse4_third_bad (c1 c2 c3 : Char) (l : List Char) (h : isDigitA c3 = false) :
    parse4 (c1 :: c2 :: c3 :: l) = none := by
  cases l with
  | nil => rfl
  | cons c4 t => simp [parse4, h]

theorem parse4_short {l : List Char} (h : l.length < 4) : parse4 l = none := by
  rcases l with _ | ⟨a, _ | ⟨b, _ | ⟨c, _ | ⟨d, t⟩⟩⟩⟩
  · rfl
  · rfl
  · rfl
  · rfl
  · simp [List.length_cons] at h
    omega

theorem parse4_natDigits {y : Nat} (h1 : 1000 ≤ y) (h2 : y ≤ 9999) (rest : List Char) :
    parse4 (natDigits y ++ rest) = some (y, rest) := by
  have e : natDigits y = [digitChar (y / 10 / 10 / 10), digitChar (y / 10 / 10 % 10),
      digitChar (y / 10 % 10), digitChar (y % 10)] := by
    rw [natDigits_step (by omega), natDigits_step (show 10 ≤ y / 10 by omega),
      natDigits_step (show 10 ≤ y / 10 / 10 by omega),
      natDigits_small (show y / 10 / 10 / 10 < 10 by omega)]
    rfl
  rw [e]
  show parse4 (digitChar (y / 10 / 10 / 10) :: digitChar (y / 10 / 10 % 10) ::
      digitChar (y / 10 % 10) :: digitChar (y % 10) :: rest) = some (y, rest)
  simp only [parse4, isDigitA_digitChar, Bool.and_self, if_true,
    dval_digitChar (show y / 10 / 10 / 10 <= 9 by omega),
    dval_digitChar (show y / 10 / 10 % 10 <= 9 by omega),
    dval_digitChar (show y / 10 % 10 <= 9 by omega),
    dval_digitChar (show y % 10 <= 9 by omega),
    Option.some.injEq, Prod.mk.injEq]
  constructor
  · omega
  · trivial

theorem natDigits_len_le3 {y : Nat} (h : y ≤ 999) : (natDigits y).length ≤ 3 := by
  by_cases h1 : y < 10
  · rw [natDigits_small h1]; simp
  · by_cases h2 : y ≤ 99
    · rw [natDigits2 (by omega) h2]; simp
    · rw [natDigits_step (by omega), natDigits2 (show 10 ≤ y / 10 by omega) (by omega)]
      simp

theorem parse12_pad2 {d : Nat} (h1 : 1 ≤ d) (h2 : d ≤ 31) {c : Char}
    (hc : isDigitA c = false) (rest : List Char) :
    parse12 (pad2 d ++ c :: rest) = some (d, c :: rest) := by
  by_cases hd : d < 10
  · simp only [pad2, hd, if_true]
    show parse12 ('0' :: digitChar d :: c :: rest) = some (d, c :: rest)
    simp only [parse12, show isDigitA '0' = true from rfl, if_true,
      isDigitA_digitChar, show dval '0' = 0 from rfl,
      dval_digitChar (show d <= 9 by omega), Option.some.injEq, Prod.mk.injEq]
    exact ⟨by omega, trivial⟩
  · simp only [pad2, hd, if_false]
    rw [natDigits2 (by omega) (by omega)]
    show parse12 (digitChar (d / 10) :: digitChar (d % 10) :: c :: rest) = some (d, c :: rest)
    simp only [parse12, isDigitA_digitChar, if_true,
      dval_digitChar (show d / 10 <= 9 by omega), dval_digitChar (show d % 10 <= 9 by omega),
      Option.some.injEq, Prod.mk.injEq]
    exact ⟨by omega, trivial⟩

theorem parseMon_abbr {m : Nat} (h1 : 1 ≤ m) (h2 : m ≤ 12) (rest : List Char) :
    parseMon (monAbbr m ++ rest) = some (m, rest) := by
  interval_cases m <;> rfl

theorem parse12_monAbbr {m : Nat} (h1 : 1 ≤ m) (h2 : m ≤ 12) (rest : List Char) :
    parse12 (monAbbr m ++ rest) = none := by
  interval_cases m <;> rfl

theorem monAbbr_not_ws {m : Nat} (h1 : 1 ≤ m) (h2 : m ≤ 12) :
    ∀ c ∈ monAbbr m, isSpaceA c = false := by
  interval_cases m <;> decide

theorem daysInMonth_le (y m : Nat) : daysInMonth y m ≤ 31 := by
  unfold daysInMonth
  split
  · split <;> omega
  · split <;> omega

theorem fmt_not_ws {dt : PyDate} (hd1 : 1 ≤ dt.d) (hd31 : dt.d ≤ 31)
    (hm1 : 1 ≤ dt.m) (hm12 : dt.m ≤ 12) :
    ∀ c ∈ fmtDMonY dt, isSpaceA c = false := by
  intro c hc
  simp only [fmtDMonY, List.mem_append, List.mem_cons] at hc
  rcases hc with hc | hc | hc
  · exact not_ws_of_digit (pad2_digits dt.d c hc)
  · subst hc; decide
  · rcases hc with hc | hc | hc
    · exact monAbbr_not_ws hm1 hm12 c hc
    · subst hc; decide
    · exact not_ws_of_digit (natDigits_digits dt.y c hc)

theorem toNat_lowChar (c : Char) :
    (lowChar c).toNat = if 65 ≤ c.toNat ∧ c.toNat ≤ 90 then c.toNat + 32 else c.toNat := by
  unfold lowChar Char.toLower
  by_cases h : c.toNat ≥ 65 ∧ c.toNat ≤ 90
  · have hv : (c.toNat + 32).isValidChar := by
      left; omega
    simp only [h, and_self, if_true, ge_iff_le]
    unfold Char.ofNat
    rw [dif_pos hv]
    rfl
  · simp only [ge_iff_le] at h
    rw [if_neg h, if_neg h]

theorem lowChar_digit {c : Char} (h : isDigitA c = true) : lowChar c = c := by
  unfold isDigitA at h
  simp only [Bool.and_eq_true, decide_eq_true_eq] at h
  apply char_ext
  rw [toNat_lowChar, if_neg (by omega)]

theorem fmt_ne_nil (dt : PyDate) (hd31 : dt.d ≤ 31) : fmtDMonY dt ≠ [] := by
  obtain ⟨p1, p2, hp⟩ := pad2_shape dt.d (by omega)
  simp [fmtDMonY, hp]

theorem fmt_lower_ne_nan (dt : PyDate) (hd31 : dt.d ≤ 31) :
    lowerL (fmtDMonY dt) ≠ ['n', 'a', 'n'] := by
  obtain ⟨p1, p2, hp⟩ := pad2_shape dt.d (by omega)
  have hp1 : isDigitA p1 = true := by
    apply pad2_digits dt.d
    rw [hp]
    exact List.mem_cons_self p1 [p2]
  intro hcon
  unfold fmtDMonY at hcon
  rw [hp] at hcon
  simp only [lowerL, List.cons_append, List.map_cons] at hcon
  have h1 : lowChar p1 = 'n' := by
    have := congrArg (fun l => l.headI) hcon
    simpa using this
  rw [lowChar_digit hp1] at h1
  subst h1
  simp [isDigitA] at hp1

theorem parseFmtISO_fmt {dt : PyDate} (hd31 : dt.d ≤ 31) :
    parseFmtISO (fmtDMonY dt) = none := by
  obtain ⟨p1, p2, hp⟩ := pad2_shape dt.d (by omega)
  unfold parseFmtISO fmtDMonY
  rw [hp]
  show (match parse4 (p1 :: p2 :: '-' :: (monAbbr dt.m ++ '-' :: natDigits dt.y)) with
    | none => none
    | some (y, r1) => _) = none
  rw [parse4_third_bad p1 p2 '-' _ (by decide)]

theorem parseFmtDMonY_dash_fmt {dt : PyDate} (hd1 : 1 ≤ dt.d) (hd31 : dt.d ≤ 31)
    (hm1 : 1 ≤ dt.m) (hm12 : dt.m ≤ 12) (hy : 1000 ≤ dt.y) (hy2 : dt.y ≤ 9999)
    (hv : validYMD dt.y dt.m dt.d = true) :
    parseFmtDMonY '-' (fmtDMonY dt) = some dt := by
  unfold parseFmtDMonY fmtDMonY
  rw [parse12_pad2 hd1 hd31 (show isDigitA '-' = false by decide)]
  show (match expectC '-' ('-' :: (monAbbr dt.m ++ '-' :: natDigits dt.y)) with
    | none => none
    | some r2 => _) = some dt
  rw [show expectC '-' ('-' :: (monAbbr dt.m ++ '-' :: natDigits dt.y)) =
    some (monAbbr dt.m ++ '-' :: natDigits dt.y) by simp [expectC]]
  show (match parseMon (monAbbr dt.m ++ '-' :: natDigits dt.y) with
    | none => none
    | some (m, r3) => _) = some dt
  rw [parseMon_abbr hm1 hm12]
  show (match expectC '-' ('-' :: natDigits dt.y) with
    | none => none
    | some r4 => _) = some dt
  rw [show expectC '-' ('-' :: natDigits dt.y) = some (natDigits dt.y) by simp [expectC]]
  show (match parse4 (natDigits dt.y) with
    | none => none
    | some (y, r5) => _) = some dt
  rw [show natDigits dt.y = natDigits dt.y ++ [] by simp, parse4_natDigits hy hy2]
  show (if ([] : List Char) = [] then mkValidated dt.y dt.m dt.d else none) = some dt
  rw [if_pos rfl]
  unfold mkValidated
  rw [if_pos hv]

theorem parseFmtDMonY_dash_fmt_small {dt : PyDate} (hd1 : 1 ≤ dt.d) (hd31 : dt.d ≤ 31)
    (hm1 : 1 ≤ dt.m) (hm12 : dt.m ≤ 12) (hy : dt.y ≤ 999) :
    parseFmtDMonY '-' (fmtDMonY dt) = none := by
  unfold parseFmtDMonY fmtDMonY
  rw [parse12_pad2 hd1 hd31 (show isDigitA '-' = false by decide)]
  show (match expectC '-' ('-' :: (monAbbr dt.m ++ '-' :: natDigits dt.y)) with
    | none => none
    | some r2 => _) = none
  rw [show expectC '-' ('-' :: (monAbbr dt.m ++ '-' :: natDigits dt.y)) =
    some (monAbbr dt.m ++ '-' :: natDigits dt.y) by simp [expectC]]
  show (match parseMon (monAbbr dt.m ++ '-' :: natDigits dt.y) with
    | none => none
    | some (m, r3) => _) = none
  rw [parseMon_abbr hm1 hm12]
  show (match expectC '-' ('-' :: natDigits dt.y) with
    | none => none
    | some r4 => _) = none
  rw [show expectC '-' ('-' :: natDigits dt.y) = some (natDigits dt.y) by simp [expectC]]
  show (match parse4 (natDigits dt.y) with
    | none => none
    | some (y, r5) => _) = none
  rw [parse4_short (by have := natDigits_len_le3 hy; omega)]

theorem parseFmtDMonY_slash_fmt {dt : PyDate} (hd1 : 1 ≤ dt.d) (hd31 : dt.d ≤ 31) :
    parseFmtDMonY '/' (fmtDMonY dt) = none := by
  unfold parseFmtDMonY fmtDMonY
  rw [parse12_pad2 hd1 hd31 (show isDigitA '-' = false by decide)]
  simp [expectC]

theorem parseFmtDMY_slash_fmt {dt : PyDate} (hd1 : 1 ≤ dt.d) (hd31 : dt.d ≤ 31) :
    parseFmtDMY '/' (fmtDMonY dt) = none := by
  unfold parseFmtDMY fmtDMonY
  rw [parse12_pad2 hd1 hd31 (show isDigitA '-' = false by decide)]
  simp [expectC]

theorem parseFmtDMY_dash_fmt {dt : PyDate} (hd1 : 1 ≤ dt.d) (hd31 : dt.d ≤ 31)
    (hm1 : 1 ≤ dt.m) (hm12 : dt.m ≤ 12) :
    parseFmtDMY '-' (fmtDMonY dt) = none := by
  unfold parseFmtDMY fmtDMonY
  rw [parse12_pad2 hd1 hd31 (show isDigitA '-' = false by decide)]
  show (match expectC '-' ('-' :: (monAbbr dt.m ++ '-' :: natDigits dt.y)) with
    | none => none
    | some r2 => _) = none
  rw [show expectC '-' ('-' :: (monAbbr dt.m ++ '-' :: natDigits dt.y)) =
    some (monAbbr dt.m ++ '-' :: natDigits dt.y) by simp [expectC]]
  show (match parse12 (monAbbr dt.m ++ '-' :: natDigits dt.y) with
    | none => none
    | some (m, r3) => _) = none
  rw [parse12_monAbbr hm1 hm12]

theorem validYMD_bounds {y m d : Nat} (h : validYMD y m d = true) :
    1 ≤ y ∧ y ≤ 9999 ∧ 1 ≤ m ∧ m ≤ 12 ∧ 1 ≤ d ∧ d ≤ 31 := by
  unfold validYMD at h
  simp only [Bool.and_eq_true, decide_eq_true_eq] at h
  have := daysInMonth_le y m
  omega

/-- Re-normalizing a canonically formatted date is a fixed point:
either the `%d-%b-%Y` format re-parses it to the same date (4-digit
years), or every format fails and the string passes through
unchanged. -/
theorem normalize_dob_fmt_fix (dt : PyDate) (hv : validYMD dt.y dt.m dt.d = true) :
    normalize_dob ⟨fmtDMonY dt⟩ = ⟨fmtDMonY dt⟩ := by
  obtain ⟨hy1, hy2, hm1, hm12, hd1, hd31⟩ := validYMD_bounds hv
  have hstrip : stripL (fmtDMonY dt) = fmtDMonY dt :=
    stripL_eq_self (fmt_not_ws hd1 hd31 hm1 hm12)
  unfold normalize_dob
  simp only [show String.data ⟨fmtDMonY dt⟩ = fmtDMonY dt from rfl, hstrip]
  rw [if_neg (by
    simp only [Bool.or_eq_true, decide_eq_true_eq, not_or]
    exact ⟨fun h => fmt_ne_nil dt hd31 h, fun h => fmt_lower_ne_nan dt hd31 h⟩)]
  by_cases hy : 1000 ≤ dt.y
  · have : tryFormats dobFormats (fmtDMonY dt) = some dt := by
      simp only [dobFormats, tryFormats, parseFmtISO_fmt hd31,
        parseFmtDMonY_dash_fmt hd1 hd31 hm1 hm12 hy hy2 hv]
    rw [this]
  · have : tryFormats dobFormats (fmtDMonY dt) = none := by
      simp only [dobFormats, tryFormats, parseFmtISO_fmt hd31,
        parseFmtDMonY_dash_fmt_small hd1 hd31 hm1 hm12 (by omega),
        parseFmtDMonY_slash_fmt hd1 hd31, parseFmtDMY_slash_fmt hd1 hd31,
        parseFmtDMY_dash_fmt hd1 hd31 hm1 hm12]
    rw [this]

theorem mkValidated_valid {y m d : Nat} {dt : PyDate} (h : mkValidated y m d = some dt) :
    validYMD dt.y dt.m dt.d = true := by
  unfold mkValidated at h
  split at h
  next hv =>
    cases h
    exact hv
  next => cases h

theorem parseFmtISO_valid {l : List Char} {dt : PyDate}
    (h : parseFmtISO l = some dt) : validYMD dt.y dt.m dt.d = true := by
  unfold parseFmtISO at h
  repeat' split at h
  all_goals first | (exact mkValidated_valid h) | (cases h)

theorem parseFmtDMonY_valid {sep : Char} {l : List Char} {dt : PyDate}
    (h : parseFmtDMonY sep l = some dt) : validYMD dt.y dt.m dt.d = true := by
  unfold parseFmtDMonY at h
  repeat' split at h
  all_goals first | (exact mkValidated_valid h) | (cases h)

theorem parseFmtDMY_valid {sep : Char} {l : List Char} {dt : PyDate}
    (h : parseFmtDMY sep l = some dt) : validYMD dt.y dt.m dt.d = true := by
  unfold parseFmtDMY at h
  repeat' split at h
  all_goals first | (exact mkValidated_valid h) | (cases h)

theorem tryFormats_valid_gen : ∀ (fs : List (List Char → Option PyDate)),
    (∀ f ∈ fs, ∀ l dt, f l = some dt → validYMD dt.y dt.m dt.d = true) →
    ∀ l dt, tryFormats fs l = some dt → validYMD dt.y dt.m dt.d = true := by
  intro fs
  induction fs with
  | nil => intro _ l dt h; cases h
  | cons f fs ih =>
    intro hall l dt h
    simp only [tryFormats] at h
    cases hfl : f l with
    | some dt2 =>
      rw [hfl] at h
      have h2 : some dt2 = some dt := h
      cases h2
      exact hall f (List.mem_cons_self f fs) l dt hfl
    | none =>
      rw [hfl] at h
      have h2 : tryFormats fs l = some dt := h
      exact ih (fun g hg => hall g (List.mem_cons_of_mem f hg)) l dt h2

theorem tryFormats_valid {l : List Char} {dt : PyDate}
    (h : tryFormats dobFormats l = some dt) : validYMD dt.y dt.m dt.d = true := by
  apply tryFormats_valid_gen dobFormats _ l dt h
  intro f hf
  simp only [dobFormats, List.mem_cons, List.not_mem_nil, or_false] at hf
  rcases hf with rfl | rfl | rfl | rfl | rfl
  · exact fun l dt h => parseFmtISO_valid h
  · exact fun l dt h => parseFmtDMonY_valid h
  · exact fun l dt h => parseFmtDMonY_valid h
  · exact fun l dt h => parseFmtDMY_valid h
  · exact fun l dt h => parseFmtDMY_valid h

theorem normalize_dob_idem (s : String) :
    normalize_dob (normalize_dob s) = normalize_dob s := by
  have key : normalize_dob s = "" ∨
      (∃ dt, validYMD dt.y dt.m dt.d = true ∧ normalize_dob s = ⟨fmtDMonY dt⟩) ∨
      (normalize_dob s = ⟨stripL s.data⟩ ∧ stripL s.data ≠ [] ∧
        lowerL (stripL s.data) ≠ ['n', 'a', 'n'] ∧
        tryFormats dobFormats (stripL s.data) = none) := by
    unfold normalize_dob
    by_cases hg : (stripL s.data = [] || lowerL (stripL s.data) = ['n', 'a', 'n']) = true
    · left
      simp only [hg, if_true]
    · simp only [Bool.or_eq_true, decide_eq_true_eq, not_or] at hg
      cases htf : tryFormats dobFormats (stripL s.data) with
      | some dt =>
        right; left
        refine ⟨dt, tryFormats_valid htf, ?_⟩
        rw [if_neg (by simp [hg.1, hg.2]), htf]
      | none =>
        right; right
        refine ⟨?_, hg.1, hg.2, ?_⟩
        · rw [if_neg (by simp [hg.1, hg.2]), htf]
        · first
          | exact htf
          | rfl
  rcases key with h | ⟨dt, hv, h⟩ | ⟨h, hne, hnan, htf⟩ <;> rw [h]
  · decide
  · exact normalize_dob_fmt_fix dt hv
  · unfold normalize_dob
    simp only [show String.data ⟨stripL s.data⟩ = stripL s.data from rfl, stripL_idem]
    rw [if_neg (by simp [hne, hnan]), htf]

theorem digitRunsGo_join : ∀ (l cur : List Char),
    (digitRunsGo cur l).join = cur.reverse ++ l.filter isDigitA := by
  intro l
  induction l with
  | nil =>
    intro cur
    by_cases h : cur = []
    · simp [digitRunsGo, h]
    · simp [digitRunsGo, h]
  | cons c rest ih =>
    intro cur
    by_cases hc : isDigitA c
    · rw [show digitRunsGo cur (c :: rest) = digitRunsGo (c :: cur) rest from by
        simp [digitRunsGo, hc]]
      rw [ih (c :: cur), List.filter_cons_of_pos hc]
      simp
    · by_cases hcur : cur = []
      · rw [show digitRunsGo cur (c :: rest) = digitRunsGo [] rest from by
          simp [digitRunsGo, hc, hcur]]
        rw [ih [], List.filter_cons_of_neg (by simpa using hc), hcur]
      · rw [show digitRunsGo cur (c :: rest) = cur.reverse :: digitRunsGo [] rest from by
          simp [digitRunsGo, hc, hcur]]
        rw [show (cur.reverse :: digitRunsGo [] rest).join =
          cur.reverse ++ (digitRunsGo [] rest).join from rfl]
        rw [ih [], List.filter_cons_of_neg (by simpa using hc)]
        simp

theorem digitRuns_join (l : List Char) : (digitRuns l).join = l.filter isDigitA := by
  unfold digitRuns
  rw [digitRunsGo_join l []]
  rfl

/-! ## Claim C1 — `normalize_register` fallback behaviour -/
/-- C1 counterexample: the claim states `normalize_register "AB1" = "AB1"`
(too few digits for the alleged 5-digit threshold), but the code has no
threshold: it joins all digit runs and strips leading zeros, giving
`"1"`. -/
theorem C1_register_fallback_cex :
    normalize_register "AB1" = "1" ∧ ("1" : String) ≠ "AB1" := by
  constructor
  · decide
  · decide

/-- C1 (amended): on float-parse failure (and input not empty/"nan"/"None"
after stripping), `normalize_register` concatenates ALL digit runs (the
concatenation of `re.findall(r"\d+", s)` equals filtering the digit
characters) and strips leading zeros, with no minimum-length threshold;
only when no digit exists at all does it strip a trailing `.0…` suffix.
`normalize_register "ABC12345XYZ" = "12345"`, and empty/"nan" input maps
to the empty string. -/
theorem C1_register_fallback :
    (∀ s : String, pyParseFloat (stripS s).data = none →
      ¬(stripS s = "" ∨ stripS s = "nan" ∨ stripS s = "None") →
      normalize_register s =
        (if ((stripS s).data.filter isDigitA) ≠ [] then
          ⟨((stripS s).data.filter isDigitA).dropWhile (fun c => c = '0')⟩
        else stripDotZeros (stripS s))) ∧
    normalize_register "ABC12345XYZ" = "12345" ∧
    normalize_register "" = "" ∧ normalize_register "nan" = "" := by
  refine ⟨?_, by decide, by decide, by decide⟩
  intro s hfail hguard
  unfold normalize_register
  rw [if_neg hguard]
  have hint : pyFloatInt (stripS s) = none := by
    unfold pyFloatInt
    rw [hfail]
  rw [hint, digitRuns_join]

/-- C1 witness: the fallback characterisation applied at
`"ABC12345XYZ"`. -/
theorem C1_register_fallback_witness :
    normalize_register "ABC12345XYZ" =
      (if (((stripS "ABC12345XYZ").data.filter isDigitA) ≠ []) then
        ⟨((stripS "ABC12345XYZ").data.filter isDigitA).dropWhile (fun c => c = '0')⟩
      else stripDotZeros (stripS "ABC12345XYZ")) :=
  C1_register_fallback.1 "ABC12345XYZ" (by decide) (by decide)

/-! ## Claim C6 — idempotence of the normalizers -/
/-- C6 counterexample: `normalize_register` is NOT idempotent.  On
`"A99999999999999999999"` the fallback yields the 20-digit string of
nines, but re-normalizing that string goes through Python's
`float` → `int` round-trip, and binary64 rounds `10^20 - 1` up to
`10^20`, so the second application changes the value. -/
theorem C6_idempotence_cex :
    normalize_register (normalize_register "A99999999999999999999") ≠
      normalize_register "A99999999999999999999" := by
  decide

/-- C6 (amended): every normalizer EXCEPT `normalize_register` is
idempotent on all inputs: `normalize_name`, `normalize_text`,
`normalize_gender`, `normalize_dob`, `normalize_subject_name_after_extraction`
and `normalize_result` all satisfy `f (f s) = f s`. -/
theorem C6_idempotence :
    (∀ s, normalize_name (normalize_name s) = normalize_name s) ∧
    (∀ s, normalize_text (normalize_text s) = normalize_text s) ∧
    (∀ s, normalize_gender (normalize_gender s) = normalize_gender s) ∧
    (∀ s, normalize_dob (normalize_dob s) = normalize_dob s) ∧
    (∀ s, normalize_subject_name_after_extraction
      (normalize_subject_name_after_extraction s) =
      normalize_subject_name_after_extraction s) ∧
    (∀ s, normalize_result (normalize_result s) = normalize_result s) :=
  ⟨normalize_name_idem, normalize_text_idem, normalize_gender_idem,
    normalize_dob_idem, normalize_subject_idem, normalize_result_idem⟩

/-! ## Claim C7 — `normalize_dob` format order and failure behaviour -/
/-- C7 counterexample: the claim says the result is never empty unless
the input was empty, but the input `"nan"` (nonempty) returns `""`
rather than the trimmed raw string. -/
theorem C7_dob_cex :
    normalize_dob "nan" = "" ∧ stripS "nan" = "nan" ∧ ("" : String) ≠ "nan" := by
  refine ⟨by decide, by decide, by decide⟩

/-- C7 (amended): `normalize_dob` tries the formats in the fixed order
ISO `%Y-%m-%d`, `%d-%b-%Y`, `%d/%b/%Y`, `%d/%m/%Y`, `%d-%m-%Y`; the
first successful parse is reformatted as `DD-Mon-YYYY`; on total parse
failure the trimmed raw string is returned unchanged; and the result is
empty exactly when the stripped input is empty OR is "nan"
case-insensitively (so a nonempty "nan"-like input also maps to ""). -/
theorem C7_dob_format_order : ∀ s : String,
    ((stripL s.data = [] ∨ lowerL (stripL s.data) = ['n', 'a', 'n']) →
      normalize_dob s = "") ∧
    (∀ dt, ¬(stripL s.data = [] ∨ lowerL (stripL s.data) = ['n', 'a', 'n']) →
      parseFmtISO (stripL s.data) = some dt → normalize_dob s = ⟨fmtDMonY dt⟩) ∧
    (∀ dt, ¬(stripL s.data = [] ∨ lowerL (stripL s.data) = ['n', 'a', 'n']) →
      parseFmtISO (stripL s.data) = none →
      parseFmtDMonY '-' (stripL s.data) = some dt →
      normalize_dob s = ⟨fmtDMonY dt⟩) ∧
    (∀ dt, ¬(stripL s.data = [] ∨ lowerL (stripL s.data) = ['n', 'a', 'n']) →
      parseFmtISO (stripL s.data) = none →
      parseFmtDMonY '-' (stripL s.data) = none →
      parseFmtDMonY '/' (stripL s.data) = some dt →
      normalize_dob s = ⟨fmtDMonY dt⟩) ∧
    (∀ dt, ¬(stripL s.data = [] ∨ lowerL (stripL s.data) = ['n', 'a', 'n']) →
      parseFmtISO (stripL s.data) = none →
      parseFmtDMonY '-' (stripL s.data) = none →
      parseFmtDMonY '/' (stripL s.data) = none →
      parseFmtDMY '/' (stripL s.data) = some dt →
      normalize_dob s = ⟨fmtDMonY dt⟩) ∧
    (∀ dt, ¬(stripL s.data = [] ∨ lowerL (stripL s.data) = ['n', 'a', 'n']) →
      parseFmtISO (stripL s.data) = none →
      parseFmtDMonY '-' (stripL s.data) = none →
      parseFmtDMonY '/' (stripL s.data) = none →
      parseFmtDMY '/' (stripL s.data) = none →
      parseFmtDMY '-' (stripL s.data) = some dt →
      normalize_dob s = ⟨fmtDMonY dt⟩) ∧
    (¬(stripL s.data = [] ∨ lowerL (stripL s.data) = ['n', 'a', 'n']) →
      tryFormats dobFormats (stripL s.data) = none →
      normalize_dob s = ⟨stripL s.data⟩ ∧ normalize_dob s ≠ "") := by
  intro s
  have hguard : ∀ (h : stripL s.data = [] ∨ lowerL (stripL s.data) = ['n', 'a', 'n']),
      normalize_dob s = "" := by
    intro h
    unfold normalize_dob
    rw [if_pos (by rcases h with h | h <;> simp [h])]
  have hnotg : ∀ (h : ¬(stripL s.data = [] ∨ lowerL (stripL s.data) = ['n', 'a', 'n'])),
      (decide (stripL s.data = []) || decide (lowerL (stripL s.data) = ['n', 'a', 'n'])) = false := by
    intro h
    rw [not_or] at h
    simp [h.1, h.2]
  refine ⟨hguard, ?_, ?_, ?_, ?_, ?_, ?_⟩
  · intro dt hg h1
    unfold normalize_dob
    rw [if_neg (by rw [hnotg hg]; simp)]
    simp [dobFormats, tryFormats, h1]
  · intro dt hg h1 h2
    unfold normalize_dob
    rw [if_neg (by rw [hnotg hg]; simp)]
    simp [dobFormats, tryFormats, h1, h2]
  · intro dt hg h1 h2 h3
    unfold normalize_dob
    rw [if_neg (by rw [hnotg hg]; simp)]
    simp [dobFormats, tryFormats, h1, h2, h3]
  · intro dt hg h1 h2 h3 h4
    unfold normalize_dob
    rw [if_neg (by rw [hnotg hg]; simp)]
    simp [dobFormats, tryFormats, h1, h2, h3, h4]
  · intro dt hg h1 h2 h3 h4 h5
    unfold normalize_dob
    rw [if_neg (by rw [hnotg hg]; simp)]
    simp [dobFormats, tryFormats, h1, h2, h3, h4, h5]
  · intro hg htf
    have hres : normalize_dob s = ⟨stripL s.data⟩ := by
      unfold normalize_dob
      rw [if_neg (by rw [hnotg hg]; simp), htf]
    refine ⟨hres, ?_⟩
    rw [hres]
    intro hcon
    rw [not_or] at hg
    exact hg.1 (congrArg String.data hcon)

/-- C7 witness: the ISO branch applied at `"2020-03-05"` (all format
hypotheses discharged by evaluation), giving `"05-Mar-2020"`. -/
theorem C7_dob_format_order_witness :
    normalize_dob "2020-03-05" = ⟨fmtDMonY ⟨2020, 3, 5⟩⟩ :=
  (C7_dob_format_order "2020-03-05").2.1 ⟨2020, 3, 5⟩ (by decide) (by decide)

/-! ## Claims C2 and C10 — overlap resolution and RESULT domain -/
theorem scanB_props (regno : String) : ∀ (bMs : List RawMatch) (used : List (Nat × Nat)),
    (∀ r ∈ scanB regno used bMs, ∀ u ∈ used, r.stop ≤ u.1 ∨ u.2 ≤ r.start) ∧
    List.Pairwise (fun r1 r2 => r1.stop ≤ r2.start ∨ r2.stop ≤ r1.start)
      (scanB regno used bMs) ∧
    (∀ r ∈ scanB regno used bMs, ∃ m ∈ bMs,
      r = ⟨m.start, m.stop, Layout.B, buildB regno m⟩) := by
  intro bMs
  induction bMs with
  | nil =>
    intro used
    refine ⟨?_, ?_, ?_⟩ <;> simp [scanB]
  | cons m rest ih =>
    intro used
    by_cases hov : overlapsAny m.start m.stop used = true
    · simp only [scanB, hov, if_true]
      obtain ⟨i1, i2, i3⟩ := ih used
      exact ⟨i1, i2, fun r hr => by
        obtain ⟨m', hm', he⟩ := i3 r hr
        exact ⟨m', List.mem_cons_of_mem m hm', he⟩⟩
    · have hnov : ∀ u ∈ used, m.stop ≤ u.1 ∨ u.2 ≤ m.start := by
        intro u hu
        by_contra hcon
        push_neg at hcon
        apply hov
        unfold overlapsAny
        rw [List.any_eq_true]
        refine ⟨u, hu, ?_⟩
        simp only [Bool.not_eq_true', Bool.or_eq_false_iff, decide_eq_false_iff_not]
        omega
      simp only [scanB, hov, Bool.false_eq_true, if_false]
      obtain ⟨i1, i2, i3⟩ := ih (used ++ [(m.start, m.stop)])
      refine ⟨?_, ?_, ?_⟩
      · intro r hr u hu
        rcases List.mem_cons.mp hr with rfl | hr
        · exact hnov u hu
        · exact i1 r hr u (List.mem_append_left _ hu)
      · refine List.pairwise_cons.mpr ⟨?_, i2⟩
        intro r hr
        have := i1 r hr (m.start, m.stop)
          (List.mem_append_right _ (List.mem_singleton.mpr rfl))
        rcases this with h' | h'
        · exact Or.inr h'
        · exact Or.inl h'
      · intro r hr
        rcases List.mem_cons.mp hr with rfl | hr
        · exact ⟨m, List.mem_cons_self m rest, rfl⟩
        · obtain ⟨m', hm', he⟩ := i3 r hr
          exact ⟨m', List.mem_cons_of_mem m hm', he⟩

theorem filter_span_unique : ∀ (ms : List RawMatch) (s e : Nat),
    List.Pairwise (fun m1 m2 => m1.stop ≤ m2.start) ms →
    (∀ m ∈ ms, m.start < m.stop) →
    (∃ a ∈ ms, a.start = s ∧ a.stop = e) →
    (ms.filter (fun m => decide (m.start = s) && decide (m.stop = e))).length = 1 := by
  intro ms
  induction ms with
  | nil =>
    intro s e _ _ hex
    simp at hex
  | cons m rest ih =>
    intro s e hp hne hex
    have hrest := (List.pairwise_cons.mp hp).2
    have hhead := (List.pairwise_cons.mp hp).1
    by_cases hm : m.start = s ∧ m.stop = e
    · have hc : (decide (m.start = s) && decide (m.stop = e)) = true := by
        rw [hm.1, hm.2]
        simp
      rw [List.filter_cons, if_pos hc]
      have hnil : rest.filter (fun m' => decide (m'.start = s) && decide (m'.stop = e)) = [] := by
        rw [List.filter_eq_nil_iff]
        intro m' hm' hcon
        simp only [Bool.and_eq_true, decide_eq_true_eq] at hcon
        have h1 := hhead m' hm'
        have h2 := hne m (List.mem_cons_self m rest)
        omega
      rw [hnil]
      rfl
    · have hc : ¬((decide (m.start = s) && decide (m.stop = e)) = true) := by
        simp only [Bool.and_eq_true, decide_eq_true_eq]
        intro hcon
        exact hm hcon
      rw [List.filter_cons, if_neg hc]
      apply ih s e hrest (fun m' hm' => hne m' (List.mem_cons_of_mem m hm'))
      obtain ⟨a, ha, hsp⟩ := hex
      rcases List.mem_cons.mp ha with rfl | ha
      · exact absurd hsp hm
      · exact ⟨a, ha, hsp⟩

theorem filter_mapA (regno : String) (s e : Nat) : ∀ ms : List RawMatch,
    (ms.map (fun m => (⟨m.start, m.stop, Layout.A, buildA regno m⟩ : AccRec))).filter
      (fun r => decide (r.start = s) && decide (r.stop = e)) =
    (ms.filter (fun m => decide (m.start = s) && decide (m.stop = e))).map
      (fun m => (⟨m.start, m.stop, Layout.A, buildA regno m⟩ : AccRec)) := by
  intro ms
  induction ms with
  | nil => rfl
  | cons m rest ihm =>
    by_cases hm : (decide (m.start = s) && decide (m.stop = e)) = true
    · rw [List.map_cons, List.filter_cons_of_pos (by exact hm),
        List.filter_cons_of_pos (by exact hm), List.map_cons, ihm]
    · rw [List.map_cons, List.filter_cons_of_neg (by simpa using hm),
        List.filter_cons_of_neg (by simpa using hm), ihm]

/-- C2 (as stated): within one block, all accepted course-record match
spans are pairwise non-overlapping; a span matched by both Layout A and
Layout B yields exactly one record, tagged Layout A.  The hypotheses
are exactly what `re.finditer` guarantees for its match list: spans in
increasing order (`m1.stop ≤ m2.start` pairwise) and nonempty. -/
theorem C2_extraction_non_overlap (regno : String) (aMs bMs : List RawMatch)
    (ha : List.Pairwise (fun m1 m2 => m1.stop ≤ m2.start) aMs)
    (hane : ∀ m ∈ aMs, m.start < m.stop) :
    List.Pairwise (fun r1 r2 => r1.stop ≤ r2.start ∨ r2.stop ≤ r1.start)
      (extractBlock regno aMs bMs) ∧
    (∀ s e : Nat, (∃ a ∈ aMs, a.start = s ∧ a.stop = e) →
      (∃ b ∈ bMs, b.start = s ∧ b.stop = e) →
      ((extractBlock regno aMs bMs).filter
        (fun r => decide (r.start = s) && decide (r.stop = e))).map
        (fun r => r.layout) = [Layout.A]) := by
  obtain ⟨s1, s2, s3⟩ := scanB_props regno bMs (aMs.map (fun m => (m.start, m.stop)))
  constructor
  · unfold extractBlock
    rw [List.pairwise_append]
    refine ⟨?_, s2, ?_⟩
    · exact ha.map _ (fun {m1 m2} h => Or.inl h)
    · intro ra hra rb hrb
      rcases List.mem_map.mp hra with ⟨a, haMem, rfl⟩
      have := s1 rb hrb (a.start, a.stop)
        (List.mem_map.mpr ⟨a, haMem, rfl⟩)
      rcases this with h' | h'
      · exact Or.inr h'
      · exact Or.inl h'
  · intro s e hexa hexb
    unfold extractBlock
    rw [List.filter_append]
    have hBnil : (scanB regno (aMs.map (fun m => (m.start, m.stop))) bMs).filter
        (fun r => decide (r.start = s) && decide (r.stop = e)) = [] := by
      rw [List.filter_eq_nil_iff]
      intro r hr hcon
      simp only [Bool.and_eq_true, decide_eq_true_eq] at hcon
      obtain ⟨a, haMem, hsp⟩ := hexa
      have := s1 r hr (a.start, a.stop) (List.mem_map.mpr ⟨a, haMem, rfl⟩)
      have hlt := hane a haMem
      omega
    rw [hBnil, List.append_nil]
    rw [filter_mapA regno s e aMs]
    have hlen := filter_span_unique aMs s e ha hane hexa
    obtain ⟨x, hx⟩ := List.length_eq_one.mp hlen
    rw [hx]
    rfl

/-- C2 witness: a concrete block where the same span `(0, 20)` is
matched by both layouts; exactly one record survives, from Layout A. -/
theorem C2_extraction_non_overlap_witness :
    ((extractBlock "920423104001"
        [⟨0, 20, "CS101", "MATHS", some "3", some "A", some "8", "PASS"⟩]
        [⟨0, 20, "CS101", "MATHS", none, none, none, "PASS"⟩]).filter
      (fun r => decide (r.start = 0) && decide (r.stop = 20))).map
      (fun r => r.layout) = [Layout.A] :=
  (C2_extraction_non_overlap "920423104001"
      [⟨0, 20, "CS101", "MATHS", some "3", some "A", some "8", "PASS"⟩]
      [⟨0, 20, "CS101", "MATHS", none, none, none, "PASS"⟩]
      (by simp) (by simp)).2 0 20
    ⟨_, List.mem_singleton.mpr rfl, rfl, rfl⟩
    ⟨_, List.mem_singleton.mpr rfl, rfl, rfl⟩

theorem inlineResult_domain {g6 : String}
    (h : stripUpper g6 = "PASS" ∨ stripUpper g6 = "RA" ∨ stripUpper g6 = "P") :
    inlineResult g6 = "PASS" ∨ inlineResult g6 = "RA" := by
  unfold inlineResult
  rcases h with h | h | h <;> rw [h] <;> simp

/-- C10 (as stated): every record the marks extractor produces has
RESULT equal to `PASS` or `RA` after the inline mapping, and the later
`normalize_result` pass (line 313) leaves it unchanged.  The hypothesis
is what the `(PASS|RA|P)` terminal group of `pat_a`/`pat_b` guarantees
about `group(6)` up to case. -/
theorem C10_result_domain (regno : String) (aMs bMs : List RawMatch)
    (h : ∀ m : RawMatch, m ∈ aMs ∨ m ∈ bMs →
      stripUpper m.g6 = "PASS" ∨ stripUpper m.g6 = "RA" ∨ stripUpper m.g6 = "P") :
    ∀ r ∈ extractBlock regno aMs bMs,
      (r.crec.result = "PASS" ∨ r.crec.result = "RA") ∧
      normalize_result r.crec.result = r.crec.result := by
  have hfix : ∀ x : String, x = "PASS" ∨ x = "RA" → normalize_result x = x := by
    intro x hx
    rcases hx with rfl | rfl <;> decide
  intro r hr
  rcases List.mem_append.mp hr with hr | hr
  · rcases List.mem_map.mp hr with ⟨m, hm, rfl⟩
    have hdom := inlineResult_domain (h m (Or.inl hm))
    exact ⟨hdom, hfix _ hdom⟩
  · obtain ⟨m, hm, rfl⟩ := (scanB_props regno bMs _).2.2 r hr
    have hdom := inlineResult_domain (h m (Or.inr hm))
    exact ⟨hdom, hfix _ hdom⟩

/-- C10 witness: a concrete lenient-layout record whose terminal token
is lowercase `p`; the produced RESULT is `PASS` and `normalize_result`
fixes it. -/
theorem C10_result_domain_witness :
    ((⟨0, 9, Layout.B, buildB "1" ⟨0, 9, "AUD101", "YOGA", none, none, none, "p"⟩⟩ :
        AccRec).crec.result = "PASS" ∨
      (⟨0, 9, Layout.B, buildB "1" ⟨0, 9, "AUD101", "YOGA", none, none, none, "p"⟩⟩ :
        AccRec).crec.result = "RA") ∧
    normalize_result (⟨0, 9, Layout.B,
        buildB "1" ⟨0, 9, "AUD101", "YOGA", none, none, none, "p"⟩⟩ : AccRec).crec.result =
      (⟨0, 9, Layout.B,
        buildB "1" ⟨0, 9, "AUD101", "YOGA", none, none, none, "p"⟩⟩ : AccRec).crec.result :=
  C10_result_domain "1" [] [⟨0, 9, "AUD101", "YOGA", none, none, none, "p"⟩]
    (by intro m hm; rcases hm with hm | hm
        · cases hm
        · rcases List.mem_singleton.mp hm with rfl
          right; right; decide)
    _ (by
      show _ ∈ extractBlock "1" [] [⟨0, 9, "AUD101", "YOGA", none, none, none, "p"⟩]
      decide)

/-! ## Claims C9 and C8 — fallback anchor pattern and empty extraction -/
theorem primCls_of_digCls {c : Char} (h : digCls c = true) : primCls c = true := by
  unfold digCls at h
  unfold primCls
  simp [h]

theorem takeWhile_prim_ne {l : List Char} (h : l.takeWhile digCls ≠ []) :
    l.takeWhile primCls ≠ [] := by
  cases l with
  | nil => simp at h
  | cons c r =>
    by_cases hc : digCls c = true
    · simp [List.takeWhile_cons, primCls_of_digCls hc]
    · simp [List.takeWhile_cons, hc] at h

theorem anchorTailB_mono : ∀ (l : List Char) (pr : Nat × List Char),
    anchorTailB digCls l = some pr → ∃ pr2, anchorTailB primCls l = some pr2 := by
  intro l pr h
  unfold anchorTailB at h ⊢
  split at h
  · cases h
  · next hne =>
    split
    · next he => exact absurd he (takeWhile_prim_ne hne)
    · exact ⟨_, rfl⟩

theorem anchorTailA_mono : ∀ (l : List Char) (pr : Nat × List Char),
    anchorTailA digCls l = some pr → ∃ pr2, anchorTailA primCls l = some pr2 := by
  intro l pr h
  unfold anchorTailA at h ⊢
  split at h
  · next l3 heq =>
    rw [heq] at h ⊢
    split at h
    · next pr1 hB =>
      obtain ⟨pr2, hB2⟩ := anchorTailB_mono l3 pr1 hB
      rw [hB2]
      exact ⟨_, rfl⟩
    · next hB =>
      split at h
      · next pr1 hB1 =>
        obtain ⟨pr2, hB3⟩ := anchorTailB_mono _ pr1 hB1
        cases hB2 : anchorTailB primCls l3 with
        | some pr3 => exact ⟨_, rfl⟩
        | none =>
          rw [hB3]
          exact ⟨_, rfl⟩
      · cases h
  · next x hne =>
    split at h
    · next pr1 hB1 =>
      obtain ⟨pr2, hB2⟩ := anchorTailB_mono _ pr1 hB1
      rw [hB2]
      exact ⟨_, rfl⟩
    · cases h

theorem anchorTailFull_mono : ∀ (l : List Char) (pr : Nat × List Char),
    anchorTailFull digCls l = some pr → ∃ pr2, anchorTailFull primCls l = some pr2 := by
  intro l pr h
  unfold anchorTailFull at h ⊢
  split at h
  · next l2 =>
    split at h
    · next pr1 hA1 =>
      obtain ⟨pr2, hA2⟩ := anchorTailA_mono l2 pr1 hA1
      rw [hA2]
      exact ⟨_, rfl⟩
    · next hA1 =>
      cases hA2 : anchorTailA primCls l2 with
      | some pr3 => exact ⟨_, rfl⟩
      | none => exact anchorTailA_mono _ pr h
  · exact anchorTailA_mono _ pr h

theorem anchorMatchAt_mono : ∀ (l : List Char) (pr : Nat × List Char),
    anchorMatchAt digCls l = some pr → ∃ pr2, anchorMatchAt primCls l = some pr2 := by
  intro l pr h
  unfold anchorMatchAt at h ⊢
  split at h
  · cases h
  · next l1 hreg =>
    split at h
    · cases h
    · next l3 hno =>
      cases hfull : anchorTailFull digCls l3 with
      | none => rw [hfull] at h; cases h
      | some pr1 =>
        obtain ⟨pr2, hfull2⟩ := anchorTailFull_mono l3 pr1 hfull
        rw [hfull2]
        exact ⟨_, rfl⟩

theorem anchorMatchAt_nil (cls : Char → Bool) : anchorMatchAt cls [] = none := rfl

theorem findIterAux_nil_iff (cls : Char → Bool) : ∀ (fuel : Nat) (l : List Char) (pos : Nat),
    l.length < fuel →
    (findIterAux cls fuel l pos = [] ↔ ∀ i, anchorMatchAt cls (l.drop i) = none) := by
  intro fuel
  induction fuel with
  | zero => intro l pos h; omega
  | succ fuel ih =>
    intro l pos hlen
    cases l with
    | nil =>
      simp only [findIterAux]
      constructor
      · intro _ i
        rw [List.drop_nil]
        exact anchorMatchAt_nil cls
      · intro _
        trivial
    | cons c rest =>
      cases hm : anchorMatchAt cls (c :: rest) with
      | some pr =>
        simp only [findIterAux, hm]
        constructor
        · intro habs
          cases habs
        · intro hall
          have := hall 0
          rw [List.drop_zero, hm] at this
          cases this
      | none =>
        simp only [findIterAux, hm]
        rw [ih rest (pos + 1) (by simp at hlen ⊢; omega)]
        constructor
        · intro hall i
          cases i with
          | zero => rw [List.drop_zero]; exact hm
          | succ j => rw [List.drop_succ_cons]; exact hall j
        · intro hall i
          have := hall (i + 1)
          rw [List.drop_succ_cons] at this
          exact this

theorem findIter_nil_iff (cls : Char → Bool) (l : List Char) :
    findIter cls l = [] ↔ ∀ i, anchorMatchAt cls (l.drop i) = none :=
  findIterAux_nil_iff cls (l.length + 1) l 0 (by omega)

/-- C9 (as stated): every position matched by the numeric fallback
anchor pattern is matched by the primary pattern (the digit class is
contained in the alphanumeric class, all other pattern pieces
coincide), so the fallback branch is dead code: `extract_pdf_data` with
the fallback branch removed computes the same records on every input
text, for every per-block course matcher. -/
theorem C9_fallback_unreachable :
    (∀ l : List Char, anchorMatchAt digCls l ≠ none → anchorMatchAt primCls l ≠ none) ∧
    (∀ (cm : List Char → List RawMatch × List RawMatch) (text : List Char),
      extract_pdf_data_primary_only cm text = extract_pdf_data cm text) := by
  have part1 : ∀ l : List Char, anchorMatchAt digCls l ≠ none →
      anchorMatchAt primCls l ≠ none := by
    intro l h
    cases hm : anchorMatchAt digCls l with
    | none => exact absurd hm h
    | some pr =>
      obtain ⟨pr2, h2⟩ := anchorMatchAt_mono l pr hm
      rw [h2]
      exact Option.some_ne_none pr2
  refine ⟨part1, ?_⟩
  intro cm text
  unfold extract_pdf_data extract_pdf_data_primary_only regIters
  by_cases hp : findIter primCls text = []
  · have hd : findIter digCls text = [] := by
      rw [findIter_nil_iff]
      intro i
      by_contra hcon
      have h2 := part1 _ hcon
      exact h2 ((findIter_nil_iff primCls text).mp hp i)
    rw [if_pos hp, hd, hp]
  · rw [if_neg hp]

/-- C9 witness: the containment applied at a concrete suffix matched by
the fallback pattern, plus the extractor equality at a concrete text. -/
theorem C9_fallback_unreachable_witness :
    anchorMatchAt primCls ("register no 123").data ≠ none ∧
    extract_pdf_data_primary_only (fun _ => ([], [])) ("REGISTER NO: 1 x").data =
      extract_pdf_data (fun _ => ([], [])) ("REGISTER NO: 1 x").data :=
  ⟨C9_fallback_unreachable.1 ("register no 123").data (by decide),
    C9_fallback_unreachable.2 (fun _ => ([], [])) ("REGISTER NO: 1 x").data⟩

theorem joinMap_ne_nil {α β : Type} (f : α → List β) : ∀ bs : List α,
    ((bs.map f).join ≠ [] ↔ ∃ b ∈ bs, f b ≠ []) := by
  intro bs
  induction bs with
  | nil => simp
  | cons b rest ih =>
    rw [List.map_cons, show ((f b :: rest.map f).join) = f b ++ (rest.map f).join from rfl]
    constructor
    · intro h
      by_cases hb : f b = []
      · rw [hb, List.nil_append] at h
        obtain ⟨b', hb', hne⟩ := ih.mp h
        exact ⟨b', List.mem_cons_of_mem b hb', hne⟩
      · exact ⟨b, List.mem_cons_self b rest, hb⟩
    · intro ⟨b', hb', hne⟩ hcon
      rcases List.append_eq_nil.mp hcon with ⟨h1, h2⟩
      rcases List.mem_cons.mp hb' with rfl | hb'
      · exact hne h1
      · exact (ih.mpr ⟨b', hb', hne⟩) h2

/-- C8 (as stated): the numeric fallback anchor pattern is tried exactly
when the primary yields no match; when neither matches, extraction
returns the empty record list rather than failing; the phase-2 caller
turns an empty extraction into a fatal error and an OK value otherwise;
and the extraction is empty exactly when every per-student block yields
zero accepted records — so one block legally yielding zero subject rows
is not fatal while zero extractable records overall is. -/
theorem C8_empty_extraction :
    (∀ text : List Char, findIter primCls text ≠ [] →
      regIters text = findIter primCls text) ∧
    (∀ text : List Char, findIter primCls text = [] →
      regIters text = findIter digCls text) ∧
    (∀ (cm : List Char → List RawMatch × List RawMatch) (text : List Char),
      regIters text = [] → extract_pdf_data cm text = []) ∧
    (∀ recs : List CourseRec,
      phase2CheckPdf recs = Except.error "Could not extract any course data from PDF." ↔
        recs = []) ∧
    (∀ (cm : List Char → List RawMatch × List RawMatch) (text : List Char),
      extract_pdf_data cm text ≠ [] ↔
        ∃ b ∈ blocksFrom text.length text (regIters text),
          extractBlock (normalize_register ⟨b.1⟩) (cm b.2).1 (cm b.2).2 ≠ []) := by
  refine ⟨?_, ?_, ?_, ?_, ?_⟩
  · intro text h
    unfold regIters
    rw [if_neg h]
  · intro text h
    unfold regIters
    rw [if_pos h]
  · intro cm text h
    unfold extract_pdf_data extractFromIters
    rw [h]
    rfl
  · intro recs
    unfold phase2CheckPdf
    constructor
    · intro h
      by_cases hr : recs = []
      · exact hr
      · rw [if_neg hr] at h
        cases h
    · intro h
      rw [if_pos h]
  · intro cm text
    unfold extract_pdf_data extractFromIters
    rw [joinMap_ne_nil]
    constructor
    · intro ⟨b, hb, hne⟩
      refine ⟨b, hb, ?_⟩
      intro hcon
      rw [hcon] at hne
      exact hne rfl
    · intro ⟨b, hb, hne⟩
      refine ⟨b, hb, ?_⟩
      intro hcon
      exact hne (List.map_eq_nil_iff.mp hcon)

/-- C8 witness: a text with no anchors gives an empty extraction and the
fatal-error report; a two-anchor text where only the second block yields
a record is not fatal. -/
theorem C8_empty_extraction_witness :
    extract_pdf_data (fun _ => ([], [])) ("hello world").data = [] ∧
    (phase2CheckPdf [] = Except.error "Could not extract any course data from PDF.") :=
  ⟨C8_empty_extraction.2.2.1 (fun _ => ([], [])) ("hello world").data (by decide),
    (C8_empty_extraction.2.2.2.1 []).mpr rfl⟩

/-! ## Claim C5 — block segmentation boundaries and tiling -/
theorem segmentSpans_length (L : Nat) : ∀ ms : List (Nat × Nat),
    (segmentSpans L ms).length = ms.length := by
  intro ms
  induction ms with
  | nil => rfl
  | cons m rest ih =>
    cases rest with
    | nil => rfl
    | cons m2 rest2 =>
      show ((m.2, m2.1) :: segmentSpans L (m2 :: rest2)).length = _
      rw [List.length_cons, ih]
      rfl

theorem segmentSpans_eq (L : Nat) : ∀ ms : List (Nat × Nat),
    segmentSpans L ms =
      (ms.zip (ms.drop 1)).map (fun pr => (pr.1.2, pr.2.1)) ++
        (match ms.getLast? with | some m => [(m.2, L)] | none => []) := by
  intro ms
  induction ms with
  | nil => rfl
  | cons m rest ih =>
    cases rest with
    | nil => rfl
    | cons m2 rest2 =>
      show (m.2, m2.1) :: segmentSpans L (m2 :: rest2) = _
      rw [ih]
      rw [show (m :: m2 :: rest2).drop 1 = m2 :: rest2 from rfl,
        List.zip_cons_cons, List.map_cons, List.getLast?_cons_cons, List.cons_append]
      rfl

theorem segmentSpans_start_ge (L : Nat) : ∀ (ms : List (Nat × Nat)),
    List.Chain' (fun a b => a.2 ≤ b.1) ms → (∀ m ∈ ms, m.1 ≤ m.2) →
    ∀ (m0 : Nat × Nat), ms.head? = some m0 →
    ∀ b ∈ segmentSpans L ms, m0.2 ≤ b.1 := by
  intro ms
  induction ms with
  | nil => intro _ _ m0 h; cases h
  | cons m rest ih =>
    intro hchain hse m0 hhead b hb
    have hm0 : m0 = m := by
      simp only [List.head?_cons, Option.some.injEq] at hhead
      exact hhead.symm
    subst hm0
    cases rest with
    | nil =>
      simp only [segmentSpans, List.mem_singleton] at hb
      subst hb
      rfl
    | cons m2 rest2 =>
      have hb' : b = (m0.2, m2.1) ∨ b ∈ segmentSpans L (m2 :: rest2) := by
        simpa [segmentSpans] using hb
      rcases hb' with rfl | hb'
      · rfl
      · have hch := (List.chain'_cons.mp hchain)
        have h1 : m2.2 ≤ b.1 := ih hch.2
          (fun m' hm' => hse m' (List.mem_cons_of_mem m0 hm')) m2 rfl b hb'
        have h2 : m0.2 ≤ m2.1 := hch.1
        have h3 : m2.1 ≤ m2.2 := hse m2 (by simp)
        omega

theorem anchors_start_mono : ∀ (ms : List (Nat × Nat)),
    List.Chain' (fun a b => a.2 ≤ b.1) ms → (∀ m ∈ ms, m.1 ≤ m.2) →
    ∀ (m0 : Nat × Nat), ms.head? = some m0 → ∀ m ∈ ms, m0.1 ≤ m.1 := by
  intro ms
  induction ms with
  | nil => intro _ _ m0 h; cases h
  | cons mh rest ih =>
    intro hchain hse m0 hhead m hm
    have hm0 : m0 = mh := by
      simp only [List.head?_cons, Option.some.injEq] at hhead
      exact hhead.symm
    subst hm0
    rcases List.mem_cons.mp hm with rfl | hm
    · exact Nat.le_refl _
    · cases rest with
      | nil => cases hm
      | cons m2 rest2 =>
        have hch := List.chain'_cons.mp hchain
        have h1 : m2.1 ≤ m.1 := ih hch.2
          (fun m' hm' => hse m' (List.mem_cons_of_mem m0 hm')) m2 rfl m hm
        have h2 : m0.2 ≤ m2.1 := hch.1
        have h3 : m0.1 ≤ m0.2 := hse m0 (by simp)
        omega

theorem segmentSpans_cover (L : Nat) : ∀ (ms : List (Nat × Nat)),
    List.Chain' (fun a b => a.2 ≤ b.1) ms → (∀ m ∈ ms, m.1 ≤ m.2) →
    ∀ (m0 : Nat × Nat), ms.head? = some m0 →
    ∀ p, m0.1 ≤ p → p < L →
      (∃ m ∈ ms, m.1 ≤ p ∧ p < m.2) ∨
        (∃ b ∈ segmentSpans L ms, b.1 ≤ p ∧ p < b.2) := by
  intro ms
  induction ms with
  | nil => intro _ _ m0 h; cases h
  | cons m rest ih =>
    intro hchain hse m0 hhead p hp1 hp2
    have hm0 : m0 = m := by
      simp only [List.head?_cons, Option.some.injEq] at hhead
      exact hhead.symm
    subst hm0
    cases rest with
    | nil =>
      by_cases hin : p < m0.2
      · exact Or.inl ⟨m0, by simp, hp1, hin⟩
      · refine Or.inr ⟨(m0.2, L), by simp [segmentSpans], ?_, hp2⟩
        omega
    | cons m2 rest2 =>
      by_cases hin : p < m0.2
      · exact Or.inl ⟨m0, by simp, hp1, hin⟩
      · by_cases hblk : p < m2.1
        · refine Or.inr ⟨(m0.2, m2.1), ?_, by omega, hblk⟩
          show (m0.2, m2.1) ∈ (m0.2, m2.1) :: segmentSpans L (m2 :: rest2)
          exact List.mem_cons_self _ _
        · have hch := List.chain'_cons.mp hchain
          have := ih hch.2 (fun m' hm' => hse m' (List.mem_cons_of_mem m0 hm'))
            m2 rfl p (by omega) hp2
          rcases this with ⟨m', hm', hc⟩ | ⟨b, hb, hc⟩
          · exact Or.inl ⟨m', List.mem_cons_of_mem m0 hm', hc⟩
          · refine Or.inr ⟨b, ?_, hc⟩
            show b ∈ (m0.2, m2.1) :: segmentSpans L (m2 :: rest2)
            exact List.mem_cons_of_mem _ hb

theorem segmentSpans_anchor_disjoint (L : Nat) : ∀ (ms : List (Nat × Nat)),
    List.Chain' (fun a b => a.2 ≤ b.1) ms → (∀ m ∈ ms, m.1 ≤ m.2) →
    ∀ m ∈ ms, ∀ b ∈ segmentSpans L ms, m.2 ≤ b.1 ∨ b.2 ≤ m.1 := by
  intro ms
  induction ms with
  | nil => intro _ _ m h; cases h
  | cons mh rest ih =>
    intro hchain hse m hm b hb
    rcases List.mem_cons.mp hm with rfl | hm
    · exact Or.inl (segmentSpans_start_ge L (m :: rest) hchain hse m rfl b hb)
    · cases rest with
      | nil => cases hm
      | cons m2 rest2 =>
        have hch := List.chain'_cons.mp hchain
        have hse' : ∀ m' ∈ m2 :: rest2, m'.1 ≤ m'.2 :=
          fun m' hm' => hse m' (List.mem_cons_of_mem mh hm')
        have hb' : b = (mh.2, m2.1) ∨ b ∈ segmentSpans L (m2 :: rest2) := by
          simpa [segmentSpans] using hb
        rcases hb' with rfl | hb'
        · right
          show m2.1 ≤ m.1
          exact anchors_start_mono (m2 :: rest2) hch.2 hse' m2 rfl m hm
        · exact ih hch.2 hse' m hm b hb'

theorem segmentSpans_pairwise (L : Nat) : ∀ (ms : List (Nat × Nat)),
    List.Chain' (fun a b => a.2 ≤ b.1) ms → (∀ m ∈ ms, m.1 ≤ m.2) →
    List.Pairwise (fun b1 b2 => b1.2 ≤ b2.1) (segmentSpans L ms) := by
  intro ms
  induction ms with
  | nil => intro _ _; exact List.Pairwise.nil
  | cons m rest ih =>
    intro hchain hse
    cases rest with
    | nil => simp [segmentSpans]
    | cons m2 rest2 =>
      have hch := List.chain'_cons.mp hchain
      have hse' : ∀ m' ∈ m2 :: rest2, m'.1 ≤ m'.2 :=
        fun m' hm' => hse m' (List.mem_cons_of_mem m hm')
      show List.Pairwise _ ((m.2, m2.1) :: segmentSpans L (m2 :: rest2))
      refine List.pairwise_cons.mpr ⟨?_, ih hch.2 hse'⟩
      intro b hb
      have h1 : m2.2 ≤ b.1 := segmentSpans_start_ge L (m2 :: rest2) hch.2 hse' m2 rfl b hb
      have h2 : m2.1 ≤ m2.2 := hse m2 (by simp)
      show m2.1 ≤ b.1
      omega

/-- C5 counterexample: the claim says the blocks partition the text
from the first anchor, but for the concrete text
`"REGISTER NO: 111 A REGISTER NO: 222 B"` the two anchor matches are
`[0,16)` and `[19,35)`, the blocks are `[16,19)` and `[35,37)`, and
position 20 — inside the second anchor, after the first anchor — lies
in no block at all (the anchor texts are gaps between the blocks). -/
theorem C5_segmentation_cex :
    (findIter primCls ("REGISTER NO: 111 A REGISTER NO: 222 B").data).map
        (fun t => (t.1, t.2.1)) = [(0, 16), (19, 35)] ∧
    segmentSpans ("REGISTER NO: 111 A REGISTER NO: 222 B").data.length
        [(0, 16), (19, 35)] = [(16, 19), (35, 37)] ∧
    (0 ≤ 20 ∧ 20 < ("REGISTER NO: 111 A REGISTER NO: 222 B").data.length) ∧
    (∀ b ∈ segmentSpans ("REGISTER NO: 111 A REGISTER NO: 222 B").data.length
        [(0, 16), (19, 35)], ¬(b.1 ≤ 20 ∧ 20 < b.2)) := by
  refine ⟨by decide, by decide, by decide, by decide⟩

/-- C5 (amended): for `k` anchor matches segmentation yields exactly
`k` blocks; block `i` spans from the end of anchor `i` to the start of
anchor `i+1` (end of text for the last block); every position from the
first anchor's start to end of text lies in an anchor or in a block;
no position lies in both an anchor and a block, and blocks are pairwise
disjoint — so anchors and blocks TOGETHER tile the text from the first
anchor, while the blocks alone leave the anchor texts as gaps.  The
hypotheses are the shape `re.finditer` guarantees: ordered disjoint
spans, each with start ≤ end ≤ text length. -/
theorem C5_segmentation (L : Nat) (ms : List (Nat × Nat))
    (hchain : List.Chain' (fun a b => a.2 ≤ b.1) ms)
    (hse : ∀ m ∈ ms, m.1 ≤ m.2)
    (hL : ∀ m ∈ ms, m.2 ≤ L) :
    ((segmentSpans L ms).length = ms.length) ∧
    (segmentSpans L ms =
      (ms.zip (ms.drop 1)).map (fun pr => (pr.1.2, pr.2.1)) ++
        (match ms.getLast? with | some m => [(m.2, L)] | none => [])) ∧
    (∀ (m0 : Nat × Nat), ms.head? = some m0 → ∀ p, m0.1 ≤ p → p < L →
      (∃ m ∈ ms, m.1 ≤ p ∧ p < m.2) ∨
        (∃ b ∈ segmentSpans L ms, b.1 ≤ p ∧ p < b.2)) ∧
    (∀ p (m b : Nat × Nat), m ∈ ms → b ∈ segmentSpans L ms →
      m.1 ≤ p → p < m.2 → b.1 ≤ p → p < b.2 → False) ∧
    List.Pairwise (fun b1 b2 => b1.2 ≤ b2.1) (segmentSpans L ms) := by
  refine ⟨segmentSpans_length L ms, segmentSpans_eq L ms, ?_, ?_, ?_⟩
  · intro m0 hm0 p hp1 hp2
    exact segmentSpans_cover L ms hchain hse m0 hm0 p hp1 hp2
  · intro p m b hm hb h1 h2 h3 h4
    rcases segmentSpans_anchor_disjoint L ms hchain hse m hm b hb with h | h <;> omega
  · exact segmentSpans_pairwise L ms hchain hse

/-- C5 witness: the amended segmentation facts applied to the anchor
spans of the counterexample text. -/
theorem C5_segmentation_witness :
    (segmentSpans 37 [(0, 16), (19, 35)]).length = 2 :=
  (C5_segmentation 37 [(0, 16), (19, 35)]
    (List.chain'_pair.mpr (by decide)) (by decide) (by decide)).1

/-! ## Claims C3 and C4 — mismatch classification and missing sets -/
theorem dedupAux_mem {α : Type} [DecidableEq α] :
    ∀ (l seen : List α) (k : α), k ∈ dedupAux seen l ↔ k ∈ l ∧ k ∉ seen := by
  intro l
  induction l with
  | nil => intro seen k; simp [dedupAux]
  | cons c rest ih =>
    intro seen k
    by_cases hc : c ∈ seen
    · rw [show dedupAux seen (c :: rest) = dedupAux seen rest from by
        simp [dedupAux, hc]]
      rw [ih]
      constructor
      · rintro ⟨h1, h2⟩
        exact ⟨List.mem_cons_of_mem c h1, h2⟩
      · rintro ⟨h1, h2⟩
        rcases List.mem_cons.mp h1 with rfl | h1
        · exact absurd hc h2
        · exact ⟨h1, h2⟩
    · rw [show dedupAux seen (c :: rest) = c :: dedupAux (seen ++ [c]) rest from by
        simp [dedupAux, hc]]
      rw [List.mem_cons, ih]
      constructor
      · rintro (rfl | ⟨h1, h2⟩)
        · exact ⟨List.mem_cons_self _ _, hc⟩
        · constructor
          · exact List.mem_cons_of_mem c h1
          · intro hcon
            exact h2 (List.mem_append_left _ hcon)
      · rintro ⟨h1, h2⟩
        rcases List.mem_cons.mp h1 with rfl | h1
        · exact Or.inl rfl
        · by_cases hk : k = c
          · exact Or.inl hk
          · refine Or.inr ⟨h1, ?_⟩
            intro hcon
            rcases List.mem_append.mp hcon with h' | h'
            · exact h2 h'
            · exact hk (List.mem_singleton.mp h')

theorem dedupFirst_mem {α : Type} [DecidableEq α] (l : List α) (k : α) :
    k ∈ dedupFirst l ↔ k ∈ l := by
  rw [dedupFirst, dedupAux_mem]
  simp

theorem dedupAux_nodup {α : Type} [DecidableEq α] :
    ∀ (l seen : List α), (dedupAux seen l).Nodup := by
  intro l
  induction l with
  | nil => intro seen; exact List.nodup_nil
  | cons c rest ih =>
    intro seen
    by_cases hc : c ∈ seen
    · rw [show dedupAux seen (c :: rest) = dedupAux seen rest from by
        simp [dedupAux, hc]]
      exact ih seen
    · rw [show dedupAux seen (c :: rest) = c :: dedupAux (seen ++ [c]) rest from by
        simp [dedupAux, hc]]
      refine List.nodup_cons.mpr ⟨?_, ih (seen ++ [c])⟩
      intro hcon
      exact ((dedupAux_mem rest (seen ++ [c]) c).mp hcon).2
        (List.mem_append_right _ (List.mem_singleton.mpr rfl))

/-- C4 counterexample: the claim says both missing sets are computed
after de-duplicating each side's key projection (at most one
representative per key), but the phase-1 (student info) computation
performs no de-duplication: two excel rows with the same key, both
absent from the PDF, both appear in missing-in-PDF. -/
theorem C4_missing_sets_cex :
    (p1MissingInPdf
      [⟨"920423104001", "U1", "A", "01-Jan-2000", "MALE", "CSE"⟩,
       ⟨"920423104001", "U1", "A", "01-Jan-2000", "MALE", "CSE"⟩] []).length = 2 ∧
    ∀ r ∈ p1MissingInPdf
      [⟨"920423104001", "U1", "A", "01-Jan-2000", "MALE", "CSE"⟩,
       ⟨"920423104001", "U1", "A", "01-Jan-2000", "MALE", "CSE"⟩] [],
      p1Key r = ("920423104001", "U1") := by
  refine ⟨by decide, by decide⟩

/-- C4 (amended): in the marks phase the missing/extra sets ARE
de-duplicated key-set differences: membership is exactly
source-minus-target and each key has at most one representative, and
the claim's concrete scenario holds.  In the info phase the outer-merge
computation keeps one row per source ROW (membership is still the
key-set difference, but duplicate keys are preserved). -/
theorem C4_missing_sets :
    (∀ (src tgt : List (String × String)) (k : String × String),
      k ∈ missingKeys src tgt ↔ k ∈ src ∧ k ∉ tgt) ∧
    (∀ (src tgt : List (String × String)), (missingKeys src tgt).Nodup) ∧
    (missingKeys [("R1", "C1"), ("R1", "C2")] [("R1", "C1")] = [("R1", "C2")] ∧
      missingKeys [("R1", "C1")] [("R1", "C1"), ("R1", "C2")] = []) ∧
    (∀ (ex pdf : List P1Row) (r : P1Row),
      r ∈ p1MissingInPdf ex pdf ↔ r ∈ ex ∧ ¬∃ p ∈ pdf, p1Key p = p1Key r) ∧
    (∀ (ex pdf : List P1Row) (r : P1Row),
      r ∈ p1MissingInExcel ex pdf ↔ r ∈ pdf ∧ ¬∃ e ∈ ex, p1Key e = p1Key r) := by
  refine ⟨?_, ?_, ⟨by decide, by decide⟩, ?_, ?_⟩
  · intro src tgt k
    unfold missingKeys
    rw [List.mem_filter, dedupFirst_mem]
    constructor
    · rintro ⟨h1, h2⟩
      simp only [Bool.not_eq_true', decide_eq_false_iff_not, dedupFirst_mem] at h2
      exact ⟨h1, h2⟩
    · rintro ⟨h1, h2⟩
      refine ⟨h1, ?_⟩
      simp only [Bool.not_eq_true', decide_eq_false_iff_not, dedupFirst_mem]
      exact h2
  · intro src tgt
    exact (dedupAux_nodup src []).filter _
  · intro ex pdf r
    unfold p1MissingInPdf
    rw [List.mem_filter]
    constructor
    · rintro ⟨h1, h2⟩
      simp only [Bool.not_eq_true', List.any_eq_false, decide_eq_false_iff_not] at h2
      exact ⟨h1, fun ⟨p, hp, he⟩ => h2 p hp (by simpa using he)⟩
    · rintro ⟨h1, h2⟩
      refine ⟨h1, ?_⟩
      simp only [Bool.not_eq_true', List.any_eq_false, decide_eq_false_iff_not]
      intro p hp he
      exact h2 ⟨p, hp, by simpa using he⟩
  · intro ex pdf r
    unfold p1MissingInExcel
    rw [List.mem_filter]
    constructor
    · rintro ⟨h1, h2⟩
      simp only [Bool.not_eq_true', List.any_eq_false, decide_eq_false_iff_not] at h2
      exact ⟨h1, fun ⟨e, he, hk⟩ => h2 e he (by simpa using hk)⟩
    · rintro ⟨h1, h2⟩
      refine ⟨h1, ?_⟩
      simp only [Bool.not_eq_true', List.any_eq_false, decide_eq_false_iff_not]
      intro e he hk
      exact h2 ⟨e, he, by simpa using hk⟩

/-- C3 counterexample: the claim says the set of differing field names
is retained for each mismatched pair, but the marks-phase mismatch rows
carry no such annotation.  For a pair differing exactly in GRADE the
emitted row is the bare merged row: no column is named
`MISMATCH_FIELDS` and no column value records the differing-field set
`"GRADE"` (the phase-1 code, by contrast, stores exactly that). -/
theorem C3_mismatch_classification_cex :
    phase2Mismatches
      [⟨"920423104001", "CS101", "MATHS", "A", "8", "PASS"⟩]
      [⟨"920423104001", "CS101", "MATHS", "B", "8", "PASS"⟩] =
      [⟨"920423104001", "CS101", "MATHS", "A", "8", "PASS", "MATHS", "B", "8", "PASS"⟩] ∧
    p2DiffsOf ⟨"920423104001", "CS101", "MATHS", "A", "8", "PASS",
      "MATHS", "B", "8", "PASS"⟩ = ["GRADE"] ∧
    (∀ kv ∈ p2Columns ⟨"920423104001", "CS101", "MATHS", "A", "8", "PASS",
      "MATHS", "B", "8", "PASS"⟩, kv.1 ≠ "MISMATCH_FIELDS" ∧ kv.2 ≠ "GRADE") := by
  refine ⟨by decide, by decide, by decide⟩

/-- C3 (amended): a joined pair is classified as a mismatch exactly when
at least one field of the fixed compared list differs under
case-insensitive whitespace-trimmed equality, with subject names
renormalized a second time at comparison (and all-empty compared fields
are equal); the differing-field set is retained per pair only in the
info phase (`MISMATCH_FIELDS`), while the marks phase emits the bare
merged rows. -/
theorem C3_mismatch_classification :
    (∀ (ex pdf : List P1Row) (e p : P1Row) (fields : String),
      (e, p, fields) ∈ phase1Mismatches ex pdf ↔
        ((e, p) ∈ p1Both ex pdf ∧ p1Diffs e p ≠ [] ∧
          fields = String.intercalate ", " (p1Diffs e p))) ∧
    (∀ e p : P1Row, p1Diffs e p ≠ [] ↔
      ∃ c ∈ p1CompareCols, stripUpper (getP1 e c) ≠ stripUpper (getP1 p c)) ∧
    (∀ m : P2Merged, p2IsMismatch m = true ↔
      ∃ c ∈ p2CompareCols, stripUpper (getE m c) ≠ stripUpper (getP m c)) ∧
    (∀ (ex pdf : List P2Row) (m : P2Merged), m ∈ phase2Mismatches ex pdf ↔
      ((∃ m0 ∈ p2InnerJoin ex pdf, m = renormMerged m0) ∧ p2IsMismatch m = true)) ∧
    (∀ m : P2Merged, (∀ c ∈ p2CompareCols, getE m c = "" ∧ getP m c = "") →
      p2IsMismatch m = false) := by
  refine ⟨?_, ?_, ?_, ?_, ?_⟩
  · intro ex pdf e p fields
    unfold phase1Mismatches
    rw [List.mem_filterMap]
    constructor
    · rintro ⟨⟨e', p'⟩, hmem, hf⟩
      by_cases hd : p1Diffs e' p' = []
      · rw [if_pos hd] at hf
        cases hf
      · rw [if_neg hd] at hf
        have h2 : e' = e ∧ p' = p ∧
            String.intercalate ", " (p1Diffs e' p') = fields := by
          have := Option.some.inj hf
          exact ⟨congrArg Prod.fst this, congrArg Prod.fst (congrArg Prod.snd this),
            congrArg Prod.snd (congrArg Prod.snd this)⟩
        obtain ⟨rfl, rfl, h3⟩ := h2
        exact ⟨hmem, hd, h3.symm⟩
    · rintro ⟨hmem, hd, rfl⟩
      exact ⟨(e, p), hmem, by rw [if_neg hd]⟩
  · intro e p
    unfold p1Diffs
    rw [Ne, List.filter_eq_nil_iff]
    push_neg
    constructor
    · rintro ⟨c, hc, hne⟩
      simp only [decide_eq_true_eq] at hne
      exact ⟨c, hc, hne⟩
    · rintro ⟨c, hc, hne⟩
      exact ⟨c, hc, by simpa using hne⟩
  · intro m
    unfold p2IsMismatch
    rw [List.any_eq_true]
    constructor
    · rintro ⟨c, hc, hne⟩
      simp only [decide_eq_true_eq] at hne
      exact ⟨c, hc, hne⟩
    · rintro ⟨c, hc, hne⟩
      exact ⟨c, hc, by simpa using hne⟩
  · intro ex pdf m
    unfold phase2Mismatches
    rw [List.mem_filter, List.mem_map]
    constructor
    · rintro ⟨⟨m0, hm0, rfl⟩, hmis⟩
      exact ⟨⟨m0, hm0, rfl⟩, hmis⟩
    · rintro ⟨⟨m0, hm0, rfl⟩, hmis⟩
      exact ⟨⟨m0, hm0, rfl⟩, hmis⟩
  · intro m h
    unfold p2IsMismatch
    rw [List.any_eq_false]
    intro c hc
    rw [(h c hc).1, (h c hc).2]
    simp

/-- C3 witness: the all-empty-fields conjunct applied to a concrete
merged row with every compared field empty: not a mismatch. -/
theorem C3_mismatch_classification_witness :
    p2IsMismatch ⟨"R", "C", "", "", "", "", "", "", "", ""⟩ = false :=
  C3_mismatch_classification.2.2.2.2 ⟨"R", "C", "", "", "", "", "", "", "", ""⟩
    (by decide)

end DocVerify
